import Mathlib

/-!
Shallow embedding of the Go 1.11.1 runtime scheduler run-queue code
(`runtime/proc.go`) and proofs about it.

Conventions of the embedding:
* Goroutines (`g` pointers) are identified by natural numbers; `0` plays the
  role of the nil pointer, exactly as `guintptr(0)` does in the source.
* `uint32` values (queue heads and tails) are natural numbers; every
  arithmetic operation the source performs on a `uint32` is taken modulo
  `2^32` (`uint32Mod`), so overflow behaves as in the machine code.
* The `g.schedlink` field is a function `Nat → Nat` from goroutine id to
  goroutine id (`0` = nil), updated pointwise.
* The code is lock-protected or single-producer where it matters; the
  embedding is the sequential execution of one call, in which every CAS on
  state the caller owns succeeds (as it does in an uncontended execution).
  Retry loops that can only be re-entered by interference of other threads
  are therefore executed once; the one retry that matters to the claims
  (the inconsistent-snapshot retry in `runqgrab`) is kept observable.
* `throw` aborts the runtime; fallible functions return `Except String`
  with the throw message of the source.
-/

/-- Modulus of `uint32` arithmetic: 2^32. -/
def uint32Mod : Nat := 4294967296

/-- The `uint32` subtraction `a - b` (wrap-around), used by the source for
`t - h` on queue counters. -/
def sub32 (a b : Nat) : Nat := (a + uint32Mod - b % uint32Mod) % uint32Mod

/-- The `uint32` addition `a + b` (wrap-around). -/
def add32 (a b : Nat) : Nat := (a + b) % uint32Mod

/-- Capacity of a P's local run queue: `len(p.runq) = 256` in the source
(`runq [256]guintptr`). -/
def runqLen : Nat := 256

/-- The run-queue related state of one P (`type p struct` fields used by
proc.go's queue code): `runqhead`/`runqtail` are free-running `uint32`
counters, `runq` is the 256-slot ring (indexed mod 256, holding g ids),
`runnext` is the single-slot fast path (0 = empty). -/
structure PState where
  runqhead : Nat
  runqtail : Nat
  runq : Nat → Nat
  runnext : Nat

/-- Global scheduler state touched by the claims (`type schedt struct`):
the global runnable queue is a singly linked list through `g.schedlink`
from `runqhead` to `runqtail` with `runqsize` elements, plus the local
state of the one P taking part in the call under study. -/
structure Sched where
  runqhead : Nat
  runqtail : Nat
  runqsize : Nat
  links : Nat → Nat
  p : PState

/-- proc.go `runqempty` (sequential reading of its snapshot loop):
`runqhead == runqtail && runnext == 0`. -/
def runqempty (p : PState) : Bool :=
  p.runqhead % uint32Mod == p.runqtail % uint32Mod && p.runnext == 0

/-- proc.go `globrunqputbatch(ghead, gtail, n)`: link an already chained
batch onto the tail of the global queue.  The function itself sets
`gtail.schedlink = 0`. -/
def globrunqputbatch (st : Sched) (ghead gtail : Nat) (n : Nat) : Sched :=
  let links1 := Function.update st.links gtail 0
  if st.runqtail ≠ 0 then
    { st with links := Function.update links1 st.runqtail ghead,
              runqtail := gtail, runqsize := st.runqsize + n }
  else
    { st with links := links1, runqhead := ghead,
              runqtail := gtail, runqsize := st.runqsize + n }

/-- proc.go `globrunqput(gp)`: append one g to the global queue. -/
def globrunqput (st : Sched) (gp : Nat) : Sched :=
  let links1 := Function.update st.links gp 0
  if st.runqtail ≠ 0 then
    { st with links := Function.update links1 st.runqtail gp,
              runqtail := gp, runqsize := st.runqsize + 1 }
  else
    { st with links := links1, runqhead := gp,
              runqtail := gp, runqsize := st.runqsize + 1 }

/-- proc.go `globrunqputhead(gp)`: push one g at the head of the global
queue. -/
def globrunqputhead (st : Sched) (gp : Nat) : Sched :=
  let links1 := Function.update st.links gp st.runqhead
  if st.runqtail = 0 then
    { st with links := links1, runqhead := gp,
              runqtail := gp, runqsize := st.runqsize + 1 }
  else
    { st with links := links1, runqhead := gp, runqsize := st.runqsize + 1 }

/-- The loop of proc.go `runqputslow` that links the batch:
`for i := uint32(0); i < n; i++ { batch[i].schedlink.set(batch[i+1]) }`.
Each element of the list is linked to its successor; the last one is left
untouched (`globrunqputbatch` terminates it). -/
def linkBatch (links : Nat → Nat) : List Nat → (Nat → Nat)
  | [] => links
  | [_] => links
  | a :: b :: rest => linkBatch (Function.update links a b) (b :: rest)

/-- proc.go `runqputslow(p, gp, h, t)`: grab the first half of the local
ring, append the incoming `gp`, link the batch and put it on the global
queue.  `randomizeScheduler` is `raceenabled = false`, so the shuffle is
dead code.  The head CAS succeeds in the sequential execution (the owner
is the only producer). -/
def runqputslow (st : Sched) (gp h t : Nat) : Except String Sched :=
  let n := sub32 t h / 2
  if n ≠ runqLen / 2 then .error "runqputslow: queue is not full"
  else
    let batch := ((List.range n).map (fun i => st.p.runq ((h + i) % runqLen))) ++ [gp]
    let st1 : Sched := { st with p := { st.p with runqhead := add32 h n } }
    let st2 : Sched := { st1 with links := linkBatch st1.links batch }
    .ok (globrunqputbatch st2 (batch.headD 0) (batch.getLastD 0) (n + 1))

/-- The `retry:` block of proc.go `runqput`: fast path into the ring when
`t - h < len(runq)`, else `runqputslow`.  Sequentially `runqputslow`
either throws or succeeds, so the `goto retry` is unreachable. -/
def runqputTail (st : Sched) (gp : Nat) : Except String Sched :=
  let h := st.p.runqhead
  let t := st.p.runqtail
  if sub32 t h < runqLen then
    .ok { st with p := { st.p with
            runq := Function.update st.p.runq (t % runqLen) gp,
            runqtail := add32 t 1 } }
  else runqputslow st gp h t

/-- proc.go `runqput(p, gp, next)`.  With `next` set the new g is CASed
into `runnext` and a previous occupant is kicked to the tail of the ring
(the CAS succeeds sequentially). -/
def runqput (st : Sched) (gp : Nat) (next : Bool) : Except String Sched :=
  if next then
    let oldnext := st.p.runnext
    let st1 : Sched := { st with p := { st.p with runnext := gp } }
    if oldnext = 0 then .ok st1
    else runqputTail st1 oldnext
  else runqputTail st gp

/-- proc.go `runqget(p)`: take `runnext` if occupied (`inheritTime =
true`), else pop the ring head (`inheritTime = false`); `nil` when the
queue is empty. -/
def runqget (st : Sched) : Option (Nat × Bool) × Sched :=
  if st.p.runnext ≠ 0 then
    (some (st.p.runnext, true), { st with p := { st.p with runnext := 0 } })
  else if st.p.runqtail % uint32Mod = st.p.runqhead % uint32Mod then
    (none, st)
  else
    (some (st.p.runq (st.p.runqhead % runqLen), false),
     { st with p := { st.p with runqhead := add32 st.p.runqhead 1 } })

/-- The copy loop of proc.go `runqgrab`:
`for i := uint32(0); i < n; i++ { batch[(batchHead+i)%len] = src.runq[(h+i)%len] }`. -/
def copyBatch (srcq : Nat → Nat) (h bh : Nat) (batch : Nat → Nat) : Nat → (Nat → Nat)
  | 0 => batch
  | i + 1 =>
    Function.update (copyBatch srcq h bh batch i)
      ((bh + i) % runqLen) (srcq ((h + i) % runqLen))

/-- One iteration of the `for` loop of proc.go `runqgrab(src, batch,
batchHead, stealRunNextG)`.  `none` is the `continue` taken when the
snapshot is inconsistent (`n > len(runq)/2`); otherwise the result is
`(n, batch', src')`.  The `usleep(3)`/`osyield()` before the `runnext`
CAS only spends time and the CASes succeed in a sequential execution. -/
def runqgrabStep (src : PState) (batch : Nat → Nat) (batchHead : Nat)
    (stealRunNextG : Bool) : Option (Nat × (Nat → Nat) × PState) :=
  let h := src.runqhead
  let t := src.runqtail
  let n0 := sub32 t h
  let n := n0 - n0 / 2
  if n = 0 then
    if stealRunNextG && src.runnext != 0 then
      some (1, Function.update batch (batchHead % runqLen) src.runnext,
            { src with runnext := 0 })
    else some (0, batch, src)
  else if runqLen / 2 < n then none
  else
    some (n, copyBatch src.runq h batchHead batch n,
          { src with runqhead := add32 h n })

/-- Result of `runqsteal`: `diverge` stands for the unbounded retry of an
inconsistent `runqgrab` snapshot, `overflowThrow` for
`throw("runqsteal: runq overflow")`. -/
inductive StealResult where
  | diverge : StealResult
  | overflowThrow : StealResult
  | nilResult (pp p2 : PState) : StealResult
  | stolen (gp : Nat) (pp p2 : PState) : StealResult

/-- proc.go `runqsteal(p, p2, stealRunNextG)`: grab a batch from `p2`
directly into `p`'s ring at `p`'s tail, return the last grabbed g and
publish the rest by advancing `p`'s tail. -/
def runqsteal (pp p2 : PState) (stealRunNextG : Bool) : StealResult :=
  let t := pp.runqtail
  match runqgrabStep p2 pp.runq t stealRunNextG with
  | none => .diverge
  | some (n, batch, p2') =>
    if n = 0 then .nilResult pp p2'
    else
      let pp1 : PState := { pp with runq := batch }
      let n1 := n - 1
      let gp := pp1.runq ((t + n1) % runqLen)
      if n1 = 0 then .stolen gp pp1 p2'
      else
        let h := pp1.runqhead
        if runqLen ≤ (sub32 t h + n1) % uint32Mod then .overflowThrow
        else .stolen gp { pp1 with runqtail := add32 t n1 } p2'

/-- The head position of the `src` P after a `runqsteal` call (for the
branches that return a g or nil); observation function used by the
concrete counterexample. -/
def stolenSrcHead : StealResult → Nat
  | .stolen _ _ p2 => p2.runqhead
  | .nilResult _ p2 => p2.runqhead
  | _ => 0

/-- The amount proc.go `globrunqget(p, max)` takes from the global queue:
`n := runqsize/gomaxprocs + 1` capped at `runqsize`, at `max` when
`max > 0`, and at `len(p.runq)/2`, in this order. -/
def globrunqgetN (gomaxprocs gsize : Nat) (max : Int) : Nat :=
  let n := gsize / gomaxprocs + 1
  let n := if gsize < n then gsize else n
  let n := if 0 < max ∧ max < (n : Int) then max.toNat else n
  if runqLen / 2 < n then runqLen / 2 else n

/-- The trailing loop of proc.go `globrunqget`:
`for ; n > 0; n-- { gp1 := runqhead.ptr(); runqhead = gp1.schedlink;
runqput(p, gp1, false) }`. -/
def globrunqgetLoop : Nat → Sched → Except String Sched
  | 0, st => .ok st
  | k + 1, st =>
    let gp1 := st.runqhead
    let st1 : Sched := { st with runqhead := st.links gp1 }
    match runqput st1 gp1 false with
    | .error e => .error e
    | .ok st2 => globrunqgetLoop k st2

/-- proc.go `globrunqget(p, max)`: take a batch of `n` g's off the head
of the global queue; the first is returned, the rest are `runqput` into
`p`'s local queue. -/
def globrunqget (gomaxprocs : Nat) (st : Sched) (max : Int) :
    Except String (Option Nat × Sched) :=
  if st.runqsize = 0 then .ok (none, st)
  else
    let n := globrunqgetN gomaxprocs st.runqsize max
    let st1 : Sched := { st with runqsize := st.runqsize - n,
                                 runqtail := if st.runqsize - n = 0 then 0 else st.runqtail }
    let gp := st1.runqhead
    let st2 : Sched := { st1 with runqhead := st1.links gp }
    match globrunqgetLoop (n - 1) st2 with
    | .error e => .error e
    | .ok st3 => .ok (some gp, st3)

/-- Observation function for the `globrunqget` counterexample: the global
queue size after the call (0 on a throw). -/
def globrunqgetSizeAfter : Except String (Option Nat × Sched) → Nat
  | .ok (_, st) => st.runqsize
  | .error _ => 0

/-- Last element of a list of goroutine ids, `0` for the empty list
(matching the nil `sched.runqtail` of an empty global queue). -/
def lastG : List Nat → Nat
  | [] => 0
  | [a] => a
  | _ :: b :: rest => lastG (b :: rest)

/-- `isChainB links h l` holds when `l` is exactly the linked list that
starts at pointer `h`, follows `schedlink`, and ends with a nil link. -/
def isChainB (links : Nat → Nat) : Nat → List Nat → Bool
  | h, [] => h == 0
  | h, g :: rest => h == g && g != 0 && isChainB links (links g) rest

/-- Representation invariant of the global runnable queue: `l` is the
chain from `sched.runqhead`, it has no duplicates, `sched.runqsize` is
its length, and `sched.runqtail` is its last element (0 when empty). -/
def schedQueueInv (st : Sched) (l : List Nat) : Prop :=
  isChainB st.links st.runqhead l = true ∧ l.Nodup ∧
  st.runqsize = l.length ∧ st.runqtail = lastG l

instance (st : Sched) (l : List Nat) : Decidable (schedQueueInv st l) := by
  unfold schedQueueInv
  infer_instance

/-- proc.go `type randomOrder struct`: the P count and the list of its
coprimes, used for randomized work stealing. -/
structure randomOrder where
  count : Nat
  coprimes : List Nat

/-- proc.go `type randomEnum struct`. -/
structure randomEnum where
  i : Nat
  count : Nat
  pos : Nat
  inc : Nat

/-- proc.go `(*randomOrder).reset(count)`: collect every `i` in
`[1, count]` with `gcd(i, count) == 1` (the source's `gcd` is the
Euclidean loop, i.e. `Nat.gcd`). -/
def randomOrder.reset (count : Nat) : randomOrder :=
  ⟨count, ((List.range count).map (· + 1)).filter (fun i => Nat.gcd i count == 1)⟩

/-- proc.go `(*randomOrder).start(i)`. -/
def randomOrder.start (ord : randomOrder) (i : Nat) : randomEnum :=
  ⟨0, ord.count, i % ord.count, ord.coprimes.getD (i % ord.coprimes.length) 0⟩

/-- proc.go `(*randomEnum).done()`. -/
def randomEnum.done (e : randomEnum) : Bool := e.i == e.count

/-- proc.go `(*randomEnum).next()`. -/
def randomEnum.next (e : randomEnum) : randomEnum :=
  { e with i := e.i + 1, pos := (e.pos + e.inc) % e.count }

/-- proc.go `(*randomEnum).position()`. -/
def randomEnum.position (e : randomEnum) : Nat := e.pos

/-- The positions visited by `for enum := ...; !enum.done(); enum.next()`
starting from enumerator `e`, which runs while `e.i < e.count`, i.e.
exactly `count` iterations; the fuel argument counts them. -/
def enumVisits : randomEnum → Nat → List Nat
  | _, 0 => []
  | e, k + 1 => e.position :: enumVisits e.next k

/-- The full enumeration of P indexes one stealing pass of
`findrunnable` makes: `stealOrder.start(seed)` iterated to completion
(`stealOrder` was `reset` to the P count). -/
def stealOrderPositions (count seed : Nat) : List Nat :=
  enumVisits ((randomOrder.reset count).start seed) count

/-- The `stealRunNextG := i > 2` flag of the stealing loop of
`findrunnable` at pass `i`. -/
def stealRunNextGAt (i : Nat) : Bool := decide (2 < i)

/-- The stealing loop of proc.go `findrunnable`
(`for i := 0; i < 4; i++ { for enum := stealOrder.start(fastrand()); ... }`):
the list of passes, each carrying its index, its `stealRunNextG` flag and
the sequence of victim P indexes it visits.  `seeds i` is the `fastrand()`
value drawn at pass `i`. -/
def stealLoopPasses (count : Nat) (seeds : Nat → Nat) : List (Nat × Bool × List Nat) :=
  (List.range 4).map (fun i => (i, stealRunNextGAt i, stealOrderPositions count (seeds i)))

/-- The spinning decision at the top of the stealing phase of proc.go
`findrunnable` (after the `npidle == procs-1` early exit):
`if !m.spinning && 2*nmspinning >= procs - npidle { goto stop }` and
`if !m.spinning { m.spinning = true; nmspinning++ }`.  Result:
(steal?, spinning flag after, nmspinning after), `uint32` arithmetic. -/
def findrunnableSpinDecision (spinning : Bool) (nmspinning npidle procs : Nat) :
    Bool × Bool × Nat :=
  if !spinning && decide (sub32 procs npidle ≤ 2 * nmspinning % uint32Mod) then
    (false, spinning, nmspinning)
  else if !spinning then (true, true, nmspinning + 1)
  else (true, spinning, nmspinning)

/-- Modelled from the spec: the G status constants (`_Gidle` ...) live in
runtime2.go, which is not part of the sources under study; §3.4 of the
spec describes the states and the separate `scan` overlay bit.  The
values are those of the Go runtime. -/
def _Gidle : Nat := 0

/-- G status: on a run queue. -/
def _Grunnable : Nat := 1

/-- G status: executing. -/
def _Grunning : Nat := 2

/-- G status: in a blocking system call. -/
def _Gsyscall : Nat := 3

/-- G status: parked on some condition. -/
def _Gwaiting : Nat := 4

/-- G status: in the free pool. -/
def _Gdead : Nat := 6

/-- The scan overlay bit that may be OR'd into a G status. -/
def _Gscan : Nat := 4096

/-- The `status &^ _Gscan` mask of proc.go `ready` on a `uint32`
status word: clear bit 12. -/
def andNotScan (s : Nat) : Nat := s &&& 4294963199

/-- proc.go `ready(gp, traceskip, next)`: throw unless the status (scan
bit ignored) is `_Gwaiting`; otherwise CAS the status to `_Grunnable`,
`runqput` the g on the current M's P and report whether `wakep()` is
called (`npidle != 0 && nmspinning == 0`, both loaded after the queue
insertion).  Result: (new status, state after, wakep called). -/
def ready (st : Sched) (gstatus gp : Nat) (next : Bool)
    (npidle nmspinning : Nat) : Except String (Nat × Sched × Bool) :=
  if andNotScan gstatus ≠ _Gwaiting then .error "bad g->status in ready"
  else
    match runqput st gp next with
    | .error e => .error e
    | .ok st1 => .ok (_Grunnable, st1, npidle != 0 && nmspinning == 0)

/-- proc.go `type sysmontick struct` (syscall half). -/
structure sysmontick where
  syscalltick : Nat
  syscallwhen : Int
  deriving DecidableEq

/-- What the `_Psyscall` arm of proc.go `retake` decides to do for one P. -/
inductive RetakeDecision where
  | refresh (pd : sysmontick)
  | retakeP
  | skip
  deriving DecidableEq

/-- The `s == _Psyscall` arm of proc.go `retake(now)` for one observed P:
if the P's `syscalltick` moved since the last observation, only refresh
the observation record; otherwise skip (`continue`) when the local queue
is empty, someone is spinning or idle, and the syscall is younger than
10ms; otherwise attempt the CAS `_Psyscall -> _Pidle` (followed by
`handoffp` on success). -/
def retakeSyscall (p : PState) (psyscalltick : Nat) (pd : sysmontick)
    (nmspinning npidle : Nat) (now : Int) : RetakeDecision :=
  if pd.syscalltick ≠ psyscalltick then
    .refresh { syscalltick := psyscalltick, syscallwhen := now }
  else if runqempty p && decide (0 < nmspinning + npidle) &&
          decide (now < pd.syscallwhen + 10000000) then
    .skip
  else .retakeP

/-- Modelled from the spec: `_StackMin` is defined in stack.go (not among
the sources under study); it is the initial stack size of a new
goroutine, 2048 bytes. -/
def _StackMin : Nat := 2048

/-- Modelled from the spec: `sys.RegSize` (8 on 64-bit targets) is defined
in the runtime/internal/sys package, not among the sources under study. -/
def RegSize : Nat := 8

/-- proc.go `newproc1(fn, argp, narg, callergp, callerpc)` restricted to
the control flow the claims are about: throw on a nil `fn`; align the
argument size to 8 bytes and throw when it does not fit a `_StackMin`
stack; otherwise the new g becomes `_Grunnable` and is `runqput` with
`next = true`.  `(narg + 7) &^ 7 = (narg + 7) / 8 * 8` on natural
numbers.  Fresh-g bookkeeping (gfget/malg, goid) is not observable by the
claims. -/
def newproc1 (st : Sched) (fnIsNil : Bool) (narg : Nat) (newgid : Nat) :
    Except String (Nat × Sched) :=
  if fnIsNil then .error "go of nil func value"
  else
    let siz := (narg + 7) / 8 * 8
    if _StackMin - 4 * RegSize - RegSize ≤ siz then
      .error "newproc: function arguments too large for new goroutine"
    else
      match runqput st newgid true with
      | .error e => .error e
      | .ok st1 => .ok (_Grunnable, st1)

/-! Basic facts about the `uint32` arithmetic. -/

lemma sub32_zero_of_mod_eq {t h : Nat} (he : t % uint32Mod = h % uint32Mod) :
    sub32 t h = 0 := by
  simp only [sub32, uint32Mod] at *
  omega

lemma sub32_eq_of_lt {t h : Nat} (hh : h ≤ t) (hlt : t - h < uint32Mod)
    (hhm : h < uint32Mod) : sub32 t h = t - h := by
  simp only [sub32, uint32Mod] at *
  omega

/-! `runqputTail`/`runqput` always succeed on a well-formed queue
(`t - h ≤ 256`): either the fast path fires or the queue is exactly full
and `runqputslow`'s consistency check passes. -/

lemma runqputslow_runnext (st : Sched) (gp h t : Nat) (st' : Sched)
    (hok : runqputslow st gp h t = .ok st') : st'.p.runnext = st.p.runnext := by
  simp only [runqputslow] at hok
  split at hok
  · exact absurd hok (by simp)
  · simp only [Except.ok.injEq] at hok
    subst hok
    simp only [globrunqputbatch]
    split <;> rfl

lemma runqputTail_ok (st : Sched) (gp : Nat)
    (hq : sub32 st.p.runqtail st.p.runqhead ≤ runqLen) :
    ∃ st', runqputTail st gp = .ok st' ∧ st'.p.runnext = st.p.runnext := by
  by_cases hf : sub32 st.p.runqtail st.p.runqhead < runqLen
  · refine ⟨{ st with p := { st.p with
        runq := Function.update st.p.runq (st.p.runqtail % runqLen) gp,
        runqtail := add32 st.p.runqtail 1 } }, ?_, rfl⟩
    simp [runqputTail, hf]
  · have h256 : sub32 st.p.runqtail st.p.runqhead = runqLen := le_antisymm hq (not_lt.1 hf)
    have hex : ∃ st', runqputslow st gp st.p.runqhead st.p.runqtail = .ok st' := by
      simp only [runqputslow, h256]
      norm_num
    obtain ⟨st', hok⟩ := hex
    refine ⟨st', ?_, runqputslow_runnext st gp _ _ st' hok⟩
    simp only [runqputTail]
    rw [if_neg hf]
    exact hok

lemma runqput_ok (st : Sched) (gp : Nat) (next : Bool)
    (hq : sub32 st.p.runqtail st.p.runqhead ≤ runqLen) :
    ∃ st', runqput st gp next = .ok st' ∧ (next = true → st'.p.runnext = gp) := by
  cases next with
  | false =>
    obtain ⟨st', hok, -⟩ := runqputTail_ok st gp hq
    exact ⟨st', by simpa [runqput] using hok, by simp⟩
  | true =>
    by_cases h0 : st.p.runnext = 0
    · refine ⟨{ st with p := { st.p with runnext := gp } }, ?_, fun _ => rfl⟩
      simp [runqput, h0]
    · obtain ⟨st', hok, hrn⟩ :=
        runqputTail_ok { st with p := { st.p with runnext := gp } } st.p.runnext hq
      exact ⟨st', by simpa [runqput, h0] using hok, fun _ => hrn⟩

/-- C9: on a P whose ring queue and `runnext` slot are both empty,
`runqput(p, g, false)` followed by `runqget(p)` returns exactly `g` with
`inheritTime = false`, and the queue is empty again afterwards. -/
theorem runqput_runqget_roundtrip (st : Sched) (gp : Nat)
    (hrn : st.p.runnext = 0)
    (he : st.p.runqtail % uint32Mod = st.p.runqhead % uint32Mod) :
    ∃ st1 st2, runqput st gp false = .ok st1 ∧
      runqget st1 = (some (gp, false), st2) ∧ runqempty st2.p = true := by
  have h0 : sub32 st.p.runqtail st.p.runqhead = 0 := sub32_zero_of_mod_eq he
  refine ⟨{ st with p := { st.p with
        runq := Function.update st.p.runq (st.p.runqtail % runqLen) gp,
        runqtail := add32 st.p.runqtail 1 } },
      { st with p := { st.p with
        runq := Function.update st.p.runq (st.p.runqtail % runqLen) gp,
        runqtail := add32 st.p.runqtail 1,
        runqhead := add32 st.p.runqhead 1 } }, ?_, ?_, ?_⟩
  · simp [runqput, runqputTail, h0, runqLen]
  · have hne : ¬ add32 st.p.runqtail 1 % uint32Mod = st.p.runqhead % uint32Mod := by
      simp only [add32, uint32Mod] at he ⊢
      omega
    have hslot : st.p.runqhead % runqLen = st.p.runqtail % runqLen := by
      simp only [uint32Mod] at he
      simp only [runqLen]
      omega
    have hval : Function.update st.p.runq (st.p.runqtail % runqLen) gp
        (st.p.runqhead % runqLen) = gp := by
      rw [hslot, Function.update_same]
    simp [runqget, hrn, hne, hval]
  · have : add32 st.p.runqhead 1 % uint32Mod = add32 st.p.runqtail 1 % uint32Mod := by
      simp only [add32, uint32Mod] at he ⊢
      omega
    simp [runqempty, hrn, this]

/-- C9 witness: a concrete empty P. -/
theorem runqput_runqget_roundtrip_w :
    (⟨5, 5, fun _ => 0, 0⟩ : PState).runnext = 0 ∧
    ∃ st1 st2, runqput ⟨0, 0, 0, fun _ => 0, ⟨5, 5, fun _ => 0, 0⟩⟩ 42 false = .ok st1 ∧
      runqget st1 = (some (42, false), st2) ∧ runqempty st2.p = true :=
  ⟨rfl, runqput_runqget_roundtrip ⟨0, 0, 0, fun _ => 0, ⟨5, 5, fun _ => 0, 0⟩⟩ 42 rfl rfl⟩

/-- C4: a non-spinning M reaching the stealing phase of `findrunnable`
refuses to spin (and skips stealing) exactly when
`2*nmspinning >= gomaxprocs - npidle` (the busy-P count); otherwise it
sets its spinning flag and increments `nmspinning` before stealing. -/
theorem findrunnable_spin_limit (nmspinning npidle procs : Nat)
    (h1 : npidle ≤ procs) (h2 : procs < uint32Mod) (h3 : 2 * nmspinning < uint32Mod) :
    (procs - npidle ≤ 2 * nmspinning →
      findrunnableSpinDecision false nmspinning npidle procs = (false, false, nmspinning)) ∧
    (2 * nmspinning < procs - npidle →
      findrunnableSpinDecision false nmspinning npidle procs = (true, true, nmspinning + 1)) := by
  have hsub : sub32 procs npidle = procs - npidle :=
    sub32_eq_of_lt h1 (lt_of_le_of_lt (Nat.sub_le _ _) h2) (lt_of_le_of_lt h1 h2)
  have hmul : 2 * nmspinning % uint32Mod = 2 * nmspinning := Nat.mod_eq_of_lt h3
  constructor
  · intro h
    simp [findrunnableSpinDecision, hsub, hmul, h]
  · intro h
    simp [findrunnableSpinDecision, hsub, hmul, not_le.2 h]

/-- C4 witness: with 2 busy P's, one spinner blocks a second; with no
spinner the M spins. -/
theorem findrunnable_spin_limit_w :
    findrunnableSpinDecision false 1 2 4 = (false, false, 1) ∧
    findrunnableSpinDecision false 0 2 4 = (true, true, 1) :=
  ⟨(findrunnable_spin_limit 1 2 4 (by decide) (by decide) (by decide)).1 (by decide),
   (findrunnable_spin_limit 0 2 4 (by decide) (by decide) (by decide)).2 (by decide)⟩

/-- C7: for a P observed in `_Psyscall`, `retake` only refreshes the
observation record when the P's `syscalltick` moved; with an unchanged
tick it attempts the CAS `_Psyscall -> _Pidle` (followed by handoff) if
and only if the local queue is non-empty, or `nmspinning + npidle == 0`,
or the syscall is at least 10ms old. -/
theorem retake_syscall_decision (p : PState) (pst : Nat) (pd : sysmontick)
    (nms npidle : Nat) (now : Int) :
    (pd.syscalltick ≠ pst →
      retakeSyscall p pst pd nms npidle now = .refresh ⟨pst, now⟩) ∧
    (pd.syscalltick = pst →
      (retakeSyscall p pst pd nms npidle now = .retakeP ↔
        (runqempty p = false ∨ nms + npidle = 0 ∨ pd.syscallwhen + 10000000 ≤ now))) := by
  constructor
  · intro h
    simp [retakeSyscall, h]
  · intro h
    by_cases hskip : runqempty p = true ∧ 0 < nms + npidle ∧ now < pd.syscallwhen + 10000000
    · obtain ⟨he1, he2, he3⟩ := hskip
      have hcond : (runqempty p && decide (0 < nms + npidle) &&
          decide (now < pd.syscallwhen + 10000000)) = true := by
        simp only [Bool.and_eq_true, decide_eq_true_eq]
        exact ⟨⟨he1, he2⟩, he3⟩
      simp only [retakeSyscall, h, ne_eq, not_true_eq_false, if_false, hcond, if_true]
      constructor
      · intro hcontra
        exact absurd hcontra (by decide)
      · rintro (hne | hz | hold)
        · simp [he1] at hne
        · omega
        · omega
    · have hcond : ¬ (runqempty p && decide (0 < nms + npidle) &&
          decide (now < pd.syscallwhen + 10000000)) = true := by
        simp only [Bool.and_eq_true, decide_eq_true_eq]
        tauto
      simp only [retakeSyscall, h, ne_eq, not_true_eq_false, if_false, hcond]
      constructor
      · intro _
        rcases Decidable.not_and_iff_or_not.1 hskip with hne | hrest
        · exact Or.inl (by simpa using hne)
        · rcases Decidable.not_and_iff_or_not.1 hrest with hz | hold
          · exact Or.inr (Or.inl (by omega))
          · exact Or.inr (Or.inr (by omega))
      · intro _
        rfl

/-- C7 witness: a changed tick refreshes; with an unchanged tick and no
spinner or idle P the P is retaken. -/
theorem retake_syscall_decision_w :
    retakeSyscall ⟨0, 0, fun _ => 0, 0⟩ 5 ⟨4, 0⟩ 1 1 100 = .refresh ⟨5, 100⟩ ∧
    retakeSyscall ⟨0, 0, fun _ => 0, 0⟩ 5 ⟨5, 0⟩ 0 0 100 = .retakeP := by
  constructor
  · exact (retake_syscall_decision ⟨0, 0, fun _ => 0, 0⟩ 5 ⟨4, 0⟩ 1 1 100).1 (by decide)
  · exact ((retake_syscall_decision ⟨0, 0, fun _ => 0, 0⟩ 5 ⟨5, 0⟩ 0 0 100).2 rfl).mpr
      (Or.inr (Or.inl rfl))

/-- C8: task creation fails fatally exactly for a nil function value and
for an argument frame whose 8-byte-aligned size reaches
`_StackMin - 4*RegSize - RegSize`; any other input yields a new
`_Grunnable` g enqueued (as `runnext`) on the caller's P. -/
theorem newproc_failures (st : Sched) (fnIsNil : Bool) (narg newgid : Nat)
    (hq : sub32 st.p.runqtail st.p.runqhead ≤ runqLen) :
    (fnIsNil = true →
      newproc1 st fnIsNil narg newgid = .error "go of nil func value") ∧
    (fnIsNil = false → _StackMin - 4 * RegSize - RegSize ≤ (narg + 7) / 8 * 8 →
      newproc1 st fnIsNil narg newgid =
        .error "newproc: function arguments too large for new goroutine") ∧
    (fnIsNil = false → (narg + 7) / 8 * 8 < _StackMin - 4 * RegSize - RegSize →
      ∃ st', newproc1 st fnIsNil narg newgid = .ok (_Grunnable, st') ∧
        st'.p.runnext = newgid) := by
  refine ⟨fun h => by simp [newproc1, h], fun h hbig => by simp [newproc1, h, hbig], ?_⟩
  intro h hfit
  obtain ⟨st', hok, hrn⟩ := runqput_ok st newgid true hq
  refine ⟨st', ?_, hrn rfl⟩
  simp [newproc1, h, not_le.2 hfit, hok]

/-- C8 witness: nil function throws; a 2001-byte frame (aligned to 2008)
throws; a 2000-byte frame succeeds. -/
theorem newproc_failures_w :
    newproc1 ⟨0, 0, 0, fun _ => 0, ⟨5, 5, fun _ => 0, 0⟩⟩ true 0 7 =
      .error "go of nil func value" ∧
    newproc1 ⟨0, 0, 0, fun _ => 0, ⟨5, 5, fun _ => 0, 0⟩⟩ false 2001 7 =
      .error "newproc: function arguments too large for new goroutine" ∧
    ∃ st', newproc1 ⟨0, 0, 0, fun _ => 0, ⟨5, 5, fun _ => 0, 0⟩⟩ false 2000 7 =
      .ok (_Grunnable, st') ∧ st'.p.runnext = 7 := by
  refine ⟨?_, ?_, ?_⟩
  · exact (newproc_failures ⟨0, 0, 0, fun _ => 0, ⟨5, 5, fun _ => 0, 0⟩⟩ true 0 7
      (by decide)).1 rfl
  · exact (newproc_failures ⟨0, 0, 0, fun _ => 0, ⟨5, 5, fun _ => 0, 0⟩⟩ false 2001 7
      (by decide)).2.1 rfl (by decide)
  · exact (newproc_failures ⟨0, 0, 0, fun _ => 0, ⟨5, 5, fun _ => 0, 0⟩⟩ false 2000 7
      (by decide)).2.2 rfl (by decide)

/-! Facts about `lastG`, `isChainB` and `linkBatch`, used for the global
run-queue representation invariant. -/

lemma lastG_cons (g : Nat) (rest : List Nat) (h : rest ≠ []) :
    lastG (g :: rest) = lastG rest := by
  cases rest with
  | nil => exact absurd rfl h
  | cons b r => rfl

lemma lastG_mem : ∀ (l : List Nat), l ≠ [] → lastG l ∈ l := by
  intro l
  induction l with
  | nil => intro h; exact absurd rfl h
  | cons a rest ih =>
    intro _
    cases rest with
    | nil => simp [lastG]
    | cons b r =>
      rw [lastG_cons a (b :: r) (by simp)]
      exact List.mem_cons_of_mem a (ih (by simp))

lemma lastG_append (l lb : List Nat) (h : lb ≠ []) :
    lastG (l ++ lb) = lastG lb := by
  induction l with
  | nil => rfl
  | cons a l ih =>
    have hne : l ++ lb ≠ [] := by
      intro hc
      exact h (List.append_eq_nil.1 hc).2
    rw [List.cons_append, lastG_cons a (l ++ lb) hne, ih]

lemma lastG_drop : ∀ (n : Nat) (l : List Nat), l.drop n ≠ [] →
    lastG (l.drop n) = lastG l := by
  intro n
  induction n with
  | zero => intro l _; rfl
  | succ n ih =>
    intro l h
    cases l with
    | nil => simp at h
    | cons a l' =>
      rw [List.drop_succ_cons] at h ⊢
      have hl' : l' ≠ [] := by
        intro hl
        rw [hl] at h
        simp at h
      rw [lastG_cons a l' hl']
      exact ih l' h

lemma lastG_eq_getLastD : ∀ (l : List Nat), lastG l = l.getLastD 0 := by
  intro l
  induction l with
  | nil => rfl
  | cons a rest ih =>
    cases rest with
    | nil => rfl
    | cons b r =>
      rw [lastG_cons a (b :: r) (by simp), ih]
      rfl

lemma isChainB_congr (links links' : Nat → Nat) :
    ∀ (l : List Nat) (h : Nat), (∀ x ∈ l, links' x = links x) →
      isChainB links' h l = isChainB links h l := by
  intro l
  induction l with
  | nil => intro h _; rfl
  | cons g rest ih =>
    intro h hl
    simp only [isChainB]
    rw [hl g (List.mem_cons_self g rest),
        ih (links g) (fun x hx => hl x (List.mem_cons_of_mem g hx))]

lemma isChainB_ne_zero (links : Nat → Nat) :
    ∀ (l : List Nat) (h : Nat), isChainB links h l = true → ∀ x ∈ l, x ≠ 0 := by
  intro l
  induction l with
  | nil => intro h _ x hx; simp at hx
  | cons g rest ih =>
    intro h hc x hx
    simp only [isChainB, Bool.and_eq_true, beq_iff_eq, bne_iff_ne, ne_eq] at hc
    rcases List.mem_cons.1 hx with rfl | hx'
    · exact hc.1.2
    · exact ih (links g) hc.2 x hx'

lemma isChainB_head (links : Nat → Nat) :
    ∀ (l : List Nat) (h : Nat), isChainB links h l = true → h = l.headD 0 := by
  intro l h hc
  cases l with
  | nil => simpa [isChainB] using hc
  | cons g rest =>
    simp only [isChainB, Bool.and_eq_true, beq_iff_eq] at hc
    exact hc.1.1

lemma isChainB_append (links1 links2 links3 : Nat → Nat) :
    ∀ (l1 : List Nat) (h1 h2 : Nat) (l2 : List Nat),
      isChainB links1 h1 l1 = true → isChainB links2 h2 l2 = true →
      l1.Nodup →
      (∀ x ∈ l1, x ≠ lastG l1 → links3 x = links1 x) →
      (l1 ≠ [] → links3 (lastG l1) = h2) →
      (∀ x ∈ l2, links3 x = links2 x) →
      isChainB links3 (if l1 = [] then h2 else h1) (l1 ++ l2) = true := by
  intro l1
  induction l1 with
  | nil =>
    intro h1 h2 l2 _ hc2 _ _ _ hl2
    rw [if_pos rfl, List.nil_append]
    rw [isChainB_congr links2 links3 l2 h2 hl2]
    exact hc2
  | cons g rest ih =>
    intro h1 h2 l2 hc1 hc2 hnd hkeep hlink hl2
    simp only [isChainB, Bool.and_eq_true, beq_iff_eq, bne_iff_ne, ne_eq] at hc1
    obtain ⟨⟨heq, hg0⟩, hcrest⟩ := hc1
    rw [if_neg (by simp), List.cons_append]
    simp only [isChainB, Bool.and_eq_true, beq_iff_eq, bne_iff_ne, ne_eq]
    refine ⟨⟨heq, hg0⟩, ?_⟩
    by_cases hrest : rest = []
    · subst hrest
      have h3 : links3 g = h2 := hlink (by simp)
      rw [h3, List.nil_append]
      rw [isChainB_congr links2 links3 l2 h2 hl2]
      exact hc2
    · have hlast : lastG (g :: rest) = lastG rest := lastG_cons g rest hrest
      have hg_ne : g ≠ lastG (g :: rest) := by
        rw [hlast]
        intro hgl
        have hmem : lastG rest ∈ rest := lastG_mem rest hrest
        rw [← hgl] at hmem
        exact (List.nodup_cons.1 hnd).1 hmem
      have h3 : links3 g = links1 g := hkeep g (List.mem_cons_self g rest) hg_ne
      rw [h3]
      have goal2 := ih (links1 g) h2 l2 hcrest hc2 (List.nodup_cons.1 hnd).2
        (fun x hx hxl => hkeep x (List.mem_cons_of_mem g hx) (by rw [hlast]; exact hxl))
        (fun _ => by rw [← hlast]; exact hlink (by simp))
        hl2
      rw [if_neg hrest] at goal2
      exact goal2

lemma linkBatch_notmem (x : Nat) :
    ∀ (l : List Nat) (links : Nat → Nat), x ∉ l → linkBatch links l x = links x := by
  intro l
  induction l with
  | nil => intro links _; rfl
  | cons a rest ih =>
    intro links hx
    cases rest with
    | nil => rfl
    | cons b r =>
      have hxa : x ≠ a := by
        intro h
        exact hx (by rw [h]; exact List.mem_cons_self a _)
      simp only [linkBatch]
      rw [ih (Function.update links a b) (fun h => hx (List.mem_cons_of_mem a h))]
      exact Function.update_noteq hxa b links

lemma isChainB_linkBatch :
    ∀ (l : List Nat) (links : Nat → Nat), l ≠ [] → (∀ x ∈ l, x ≠ 0) → l.Nodup →
      isChainB (Function.update (linkBatch links l) (lastG l) 0) (l.headD 0) l = true := by
  intro l
  induction l with
  | nil => intro links h; exact absurd rfl h
  | cons a rest ih =>
    intro links _ h0 hnd
    have ha0 : a ≠ 0 := h0 a (by simp)
    cases rest with
    | nil =>
      simp [linkBatch, lastG, isChainB, Function.update_same, ha0]
    | cons b r =>
      have hanotin : a ∉ b :: r := (List.nodup_cons.1 hnd).1
      have halast : a ≠ lastG (b :: r) := fun h =>
        hanotin (h ▸ lastG_mem (b :: r) (by simp))
      have hLa : Function.update (linkBatch (Function.update links a b) (b :: r))
          (lastG (b :: r)) 0 a = b := by
        rw [Function.update_noteq halast]
        rw [linkBatch_notmem a (b :: r) (Function.update links a b) hanotin]
        exact Function.update_same a b links
      have hrec : isChainB (Function.update
          (linkBatch (Function.update links a b) (b :: r)) (lastG (b :: r)) 0)
          b (b :: r) = true :=
        ih (Function.update links a b) (by simp)
          (fun x hx => h0 x (List.mem_cons_of_mem a hx)) (List.nodup_cons.1 hnd).2
      show isChainB (Function.update
          (linkBatch (Function.update links a b) (b :: r)) (lastG (b :: r)) 0)
          a (a :: b :: r) = true
      simp only [isChainB, Bool.and_eq_true, beq_iff_eq, bne_iff_ne, ne_eq] at hrec ⊢
      exact ⟨⟨by trivial, ha0⟩, ⟨hLa, hrec.1.2⟩, hrec.2⟩

lemma lastG_ne_zero_of_chain {links : Nat → Nat} {h : Nat} {l : List Nat}
    (hc : isChainB links h l = true) (hne : l ≠ []) : lastG l ≠ 0 :=
  isChainB_ne_zero links l h hc (lastG l) (lastG_mem l hne)

lemma schedQueueInv_tail_zero {st : Sched} {l : List Nat}
    (hinv : schedQueueInv st l) : st.runqtail = 0 ↔ l = [] := by
  obtain ⟨hc, -, -, htl⟩ := hinv
  constructor
  · intro h0
    by_contra hne
    exact lastG_ne_zero_of_chain hc hne (htl ▸ h0)
  · intro h
    subst h
    exact htl

lemma globrunqputbatch_inv (st : Sched) (l lb : List Nat)
    (hinv : schedQueueInv st l) (hlb : lb ≠ []) (hnd : (l ++ lb).Nodup)
    (hchain : isChainB (Function.update st.links (lastG lb) 0) (lb.headD 0) lb = true) :
    schedQueueInv (globrunqputbatch st (lb.headD 0) (lastG lb) lb.length) (l ++ lb) ∧
    (globrunqputbatch st (lb.headD 0) (lastG lb) lb.length).runqsize =
      st.runqsize + lb.length ∧
    (globrunqputbatch st (lb.headD 0) (lastG lb) lb.length).p = st.p := by
  obtain ⟨hc, hndl, hsz, htl⟩ := hinv
  have hdisj : ∀ x ∈ l, x ∉ lb := fun x hx hx' =>
    (List.disjoint_of_nodup_append hnd) hx hx'
  have hlast_lb_mem : lastG lb ∈ lb := lastG_mem lb hlb
  by_cases hl : l = []
  · subst hl
    have ht0 : st.runqtail = 0 := htl
    have hres : globrunqputbatch st (lb.headD 0) (lastG lb) lb.length =
        { st with links := Function.update st.links (lastG lb) 0,
                  runqhead := lb.headD 0, runqtail := lastG lb,
                  runqsize := st.runqsize + lb.length } := by
      simp [globrunqputbatch, ht0]
    rw [hres]
    have hsz0 : st.runqsize = 0 := hsz
    refine ⟨⟨?_, ?_, ?_, ?_⟩, rfl, rfl⟩
    · rw [List.nil_append]
      exact hchain
    · rw [List.nil_append]
      exact (List.nodup_append.1 hnd).2.1
    · rw [List.nil_append]
      show st.runqsize + lb.length = lb.length
      omega
    · rw [List.nil_append]
  · have htne : st.runqtail ≠ 0 := by
      rw [htl]
      exact lastG_ne_zero_of_chain hc hl
    have hlast_l_mem : lastG l ∈ l := lastG_mem l hl
    have hll : lastG l ∉ lb := hdisj _ hlast_l_mem
    have hres : globrunqputbatch st (lb.headD 0) (lastG lb) lb.length =
        { st with links := Function.update (Function.update st.links (lastG lb) 0)
                    st.runqtail (lb.headD 0),
                  runqtail := lastG lb,
                  runqsize := st.runqsize + lb.length } := by
      simp [globrunqputbatch, htne]
    rw [hres]
    have happ := isChainB_append st.links (Function.update st.links (lastG lb) 0)
      (Function.update (Function.update st.links (lastG lb) 0) st.runqtail (lb.headD 0))
      l st.runqhead (lb.headD 0) lb hc hchain hndl ?hkeep ?hlink ?hl2
    case hkeep =>
      intro x hx hxl
      have hx1 : x ≠ st.runqtail := by
        rw [htl]
        exact hxl
      have hx2 : x ≠ lastG lb := by
        intro h
        rw [h] at hx
        exact (hdisj _ hx) hlast_lb_mem
      rw [Function.update_noteq hx1, Function.update_noteq hx2]
    case hlink =>
      intro _
      rw [htl, Function.update_same]
    case hl2 =>
      intro x hx
      have hxne : x ≠ st.runqtail := by
        rw [htl]
        intro h
        rw [h] at hx
        exact hll hx
      exact Function.update_noteq hxne _ _
    rw [if_neg hl] at happ
    refine ⟨⟨happ, hnd, ?_, ?_⟩, rfl, rfl⟩
    · show st.runqsize + lb.length = (l ++ lb).length
      rw [List.length_append]
      omega
    · show lastG lb = lastG (l ++ lb)
      exact (lastG_append l lb hlb).symm

lemma globrunqput_inv (st : Sched) (l : List Nat) (gp : Nat)
    (hinv : schedQueueInv st l) (hgp0 : gp ≠ 0) (hgpl : gp ∉ l) :
    schedQueueInv (globrunqput st gp) (l ++ [gp]) ∧
    (globrunqput st gp).runqsize = st.runqsize + 1 := by
  obtain ⟨hc, hndl, hsz, htl⟩ := hinv
  have hnd2 : (l ++ [gp]).Nodup := by
    refine List.nodup_append.2 ⟨hndl, by simp, ?_⟩
    intro x hx hx'
    simp only [List.mem_singleton] at hx'
    rw [hx'] at hx
    exact hgpl hx
  by_cases hl : l = []
  · subst hl
    have ht0 : st.runqtail = 0 := htl
    have hres : globrunqput st gp =
        { st with links := Function.update st.links gp 0,
                  runqhead := gp, runqtail := gp,
                  runqsize := st.runqsize + 1 } := by
      simp [globrunqput, ht0]
    rw [hres]
    have hsz0 : st.runqsize = 0 := hsz
    refine ⟨⟨?_, by simp, ?_, rfl⟩, rfl⟩
    · rw [List.nil_append]
      simp [isChainB, hgp0, Function.update_same]
    · simp [hsz0]
  · have htne : st.runqtail ≠ 0 := by
      rw [htl]
      exact lastG_ne_zero_of_chain hc hl
    have hlast_l_mem : lastG l ∈ l := lastG_mem l hl
    have hgl : gp ≠ lastG l := by
      intro h
      rw [h] at hgpl
      exact hgpl hlast_l_mem
    have hgpt : gp ≠ st.runqtail := by
      rw [htl]
      exact hgl
    have hres : globrunqput st gp =
        { st with links := Function.update (Function.update st.links gp 0) st.runqtail gp,
                  runqtail := gp,
                  runqsize := st.runqsize + 1 } := by
      simp [globrunqput, htne]
    rw [hres]
    have hc2 : isChainB (Function.update (Function.update st.links gp 0) st.runqtail gp)
        gp [gp] = true := by
      have h1 : Function.update (Function.update st.links gp 0) st.runqtail gp gp = 0 := by
        rw [Function.update_noteq hgpt, Function.update_same]
      simp [isChainB, hgp0, h1]
    have happ := isChainB_append st.links
      (Function.update (Function.update st.links gp 0) st.runqtail gp)
      (Function.update (Function.update st.links gp 0) st.runqtail gp)
      l st.runqhead gp [gp] hc hc2 hndl ?hkeep ?hlink (fun x _ => rfl)
    case hkeep =>
      intro x hx hxl
      have hx1 : x ≠ st.runqtail := by
        rw [htl]
        exact hxl
      have hx2 : x ≠ gp := by
        intro h
        rw [h] at hx
        exact hgpl hx
      rw [Function.update_noteq hx1, Function.update_noteq hx2]
    case hlink =>
      intro _
      rw [htl, Function.update_same]
    rw [if_neg hl] at happ
    refine ⟨⟨happ, hnd2, ?_, ?_⟩, rfl⟩
    · show st.runqsize + 1 = (l ++ [gp]).length
      rw [List.length_append]
      simp [hsz]
    · show gp = lastG (l ++ [gp])
      rw [lastG_append l [gp] (by simp)]
      rfl

lemma globrunqputhead_inv (st : Sched) (l : List Nat) (gp : Nat)
    (hinv : schedQueueInv st l) (hgp0 : gp ≠ 0) (hgpl : gp ∉ l) :
    schedQueueInv (globrunqputhead st gp) (gp :: l) ∧
    (globrunqputhead st gp).runqsize = st.runqsize + 1 := by
  obtain ⟨hc, hndl, hsz, htl⟩ := hinv
  have hLgp : Function.update st.links gp st.runqhead gp = st.runqhead :=
    Function.update_same gp st.runqhead st.links
  have hrest : isChainB (Function.update st.links gp st.runqhead) st.runqhead l = true := by
    rw [isChainB_congr st.links (Function.update st.links gp st.runqhead) l st.runqhead
      (fun x hx => Function.update_noteq (by
        intro h
        rw [h] at hx
        exact hgpl hx) st.runqhead st.links)]
    exact hc
  have hchain : isChainB (Function.update st.links gp st.runqhead) gp (gp :: l) = true := by
    simp [isChainB, hgp0, hLgp, hrest]
  have hnd2 : (gp :: l).Nodup := List.nodup_cons.2 ⟨hgpl, hndl⟩
  by_cases hl : l = []
  · subst hl
    have ht0 : st.runqtail = 0 := htl
    have hres : globrunqputhead st gp =
        { st with links := Function.update st.links gp st.runqhead,
                  runqhead := gp, runqtail := gp,
                  runqsize := st.runqsize + 1 } := by
      simp [globrunqputhead, ht0]
    rw [hres]
    have hsz0 : st.runqsize = 0 := hsz
    exact ⟨⟨hchain, hnd2, by simp [hsz0], rfl⟩, rfl⟩
  · have htne : st.runqtail ≠ 0 := by
      rw [htl]
      exact lastG_ne_zero_of_chain hc hl
    have hres : globrunqputhead st gp =
        { st with links := Function.update st.links gp st.runqhead,
                  runqhead := gp,
                  runqsize := st.runqsize + 1 } := by
      simp [globrunqputhead, htne]
    rw [hres]
    refine ⟨⟨hchain, hnd2, by simp [hsz], ?_⟩, rfl⟩
    show st.runqtail = lastG (gp :: l)
    rw [lastG_cons gp l hl]
    exact htl

lemma runqputslow_eq (st : Sched) (gp : Nat)
    (hfull : sub32 st.p.runqtail st.p.runqhead = runqLen) :
    runqputslow st gp st.p.runqhead st.p.runqtail =
      .ok (globrunqputbatch
        { st with
          links :=
            linkBatch st.links
              (((List.range (runqLen / 2)).map
                  (fun i => st.p.runq ((st.p.runqhead + i) % runqLen))) ++ [gp]),
          p := { st.p with runqhead := add32 st.p.runqhead (runqLen / 2) } }
        ((((List.range (runqLen / 2)).map
            (fun i => st.p.runq ((st.p.runqhead + i) % runqLen))) ++ [gp]).headD 0)
        (lastG (((List.range (runqLen / 2)).map
            (fun i => st.p.runq ((st.p.runqhead + i) % runqLen))) ++ [gp]))
        (runqLen / 2 + 1)) := by
  rw [lastG_eq_getLastD]
  simp only [runqputslow, hfull]
  norm_num

lemma runqputslow_spec (st : Sched) (l : List Nat) (gp : Nat)
    (hinv : schedQueueInv st l)
    (hfull : sub32 st.p.runqtail st.p.runqhead = runqLen)
    (hnd : (l ++ (((List.range (runqLen / 2)).map
        (fun i => st.p.runq ((st.p.runqhead + i) % runqLen))) ++ [gp])).Nodup)
    (h0 : ∀ x ∈ ((List.range (runqLen / 2)).map
        (fun i => st.p.runq ((st.p.runqhead + i) % runqLen))) ++ [gp], x ≠ 0) :
    ∃ st', runqputslow st gp st.p.runqhead st.p.runqtail = .ok st' ∧
      schedQueueInv st' (l ++ (((List.range (runqLen / 2)).map
        (fun i => st.p.runq ((st.p.runqhead + i) % runqLen))) ++ [gp])) ∧
      st'.runqsize = st.runqsize + (runqLen / 2 + 1) ∧
      st'.p.runqhead = add32 st.p.runqhead (runqLen / 2) ∧
      st'.p.runqtail = st.p.runqtail ∧ st'.p.runnext = st.p.runnext ∧
      st'.p.runq = st.p.runq := by
  set ring : List Nat := (List.range (runqLen / 2)).map
    (fun i => st.p.runq ((st.p.runqhead + i) % runqLen)) with hring
  have hbne : ring ++ [gp] ≠ [] := by simp
  have hnd2 : (ring ++ [gp]).Nodup := (List.nodup_append.1 hnd).2.1
  have hlen : (ring ++ [gp]).length = runqLen / 2 + 1 := by
    simp [hring, runqLen]
  have hdisj : ∀ x ∈ l, x ∉ ring ++ [gp] := fun x hx hx' =>
    (List.disjoint_of_nodup_append hnd) hx hx'
  set st2 : Sched :=
    { st with
      links := linkBatch st.links (ring ++ [gp]),
      p := { st.p with runqhead := add32 st.p.runqhead (runqLen / 2) } }
  have hinv2 : schedQueueInv st2 l := by
    obtain ⟨hc, hndl, hsz, htl⟩ := hinv
    refine ⟨?_, hndl, hsz, htl⟩
    show isChainB (linkBatch st.links (ring ++ [gp])) st.runqhead l = true
    rw [isChainB_congr st.links (linkBatch st.links (ring ++ [gp])) l st.runqhead
      (fun x hx => linkBatch_notmem x (ring ++ [gp]) st.links (hdisj x hx))]
    exact hc
  have hchain2 : isChainB (Function.update st2.links (lastG (ring ++ [gp])) 0)
      ((ring ++ [gp]).headD 0) (ring ++ [gp]) = true := by
    show isChainB (Function.update (linkBatch st.links (ring ++ [gp]))
      (lastG (ring ++ [gp])) 0) ((ring ++ [gp]).headD 0) (ring ++ [gp]) = true
    exact isChainB_linkBatch (ring ++ [gp]) st.links hbne h0 hnd2
  obtain ⟨hinv3, hsz3, hp3⟩ := globrunqputbatch_inv st2 l (ring ++ [gp]) hinv2 hbne hnd hchain2
  rw [hlen] at hinv3 hsz3 hp3
  refine ⟨globrunqputbatch st2 ((ring ++ [gp]).headD 0) (lastG (ring ++ [gp]))
    (runqLen / 2 + 1), ?_, hinv3, ?_, ?_, ?_, ?_, ?_⟩
  · exact runqputslow_eq st gp hfull
  · rw [hsz3]
  · rw [hp3]
  · rw [hp3]
  · rw [hp3]
  · rw [hp3]

/-- C2: `runqput(p, g, false)` on a full local queue
(`tail - head = 256`) moves exactly `capacity/2 + 1` goroutines — the
first half of the ring starting at the head, plus the incoming g, with g
last — onto the global queue as one contiguous batch, and leaves exactly
`capacity/2` goroutines in the local queue. -/
theorem runqput_full_batch (st : Sched) (l : List Nat) (gp : Nat)
    (hinv : schedQueueInv st l)
    (hfull : sub32 st.p.runqtail st.p.runqhead = runqLen)
    (hnd : (l ++ (((List.range (runqLen / 2)).map
        (fun i => st.p.runq ((st.p.runqhead + i) % runqLen))) ++ [gp])).Nodup)
    (h0 : ∀ x ∈ ((List.range (runqLen / 2)).map
        (fun i => st.p.runq ((st.p.runqhead + i) % runqLen))) ++ [gp], x ≠ 0) :
    ∃ st', runqput st gp false = .ok st' ∧
      schedQueueInv st' (l ++ (((List.range (runqLen / 2)).map
        (fun i => st.p.runq ((st.p.runqhead + i) % runqLen))) ++ [gp])) ∧
      st'.runqsize = st.runqsize + (runqLen / 2 + 1) ∧
      sub32 st'.p.runqtail st'.p.runqhead = runqLen / 2 ∧
      st'.p.runqtail = st.p.runqtail ∧ st'.p.runq = st.p.runq := by
  obtain ⟨st', hok, hinv', hsz', hph, hpt, hprn, hpq⟩ :=
    runqputslow_spec st l gp hinv hfull hnd h0
  have hnl : ¬ sub32 st.p.runqtail st.p.runqhead < runqLen := by
    rw [hfull]
    omega
  refine ⟨st', ?_, hinv', hsz', ?_, hpt, hpq⟩
  · have h1 : runqput st gp false = runqputTail st gp := by simp [runqput]
    rw [h1]
    simp only [runqputTail]
    rw [if_neg hnl]
    exact hok
  · rw [hpt, hph]
    simp only [sub32, add32, uint32Mod, runqLen] at hfull ⊢
    omega

set_option maxRecDepth 20000 in
/-- C2 witness: a concrete P with a full ring (entries `10..265`), an
empty global queue, and an incoming g `5000`. -/
theorem runqput_full_batch_w :
    ∃ st', runqput ⟨0, 0, 0, fun _ => 0, ⟨0, 256, fun i => 10 + i % 256, 0⟩⟩ 5000 false =
        .ok st' ∧
      schedQueueInv st' ([] ++ (((List.range (runqLen / 2)).map
        (fun i => (⟨0, 0, 0, fun _ => 0, ⟨0, 256, fun i => 10 + i % 256, 0⟩⟩ : Sched).p.runq
          (((⟨0, 0, 0, fun _ => 0, ⟨0, 256, fun i => 10 + i % 256, 0⟩⟩ : Sched).p.runqhead + i)
            % runqLen))) ++ [5000])) ∧
      st'.runqsize =
        (⟨0, 0, 0, fun _ => 0, ⟨0, 256, fun i => 10 + i % 256, 0⟩⟩ : Sched).runqsize +
          (runqLen / 2 + 1) ∧
      sub32 st'.p.runqtail st'.p.runqhead = runqLen / 2 ∧
      st'.p.runqtail =
        (⟨0, 0, 0, fun _ => 0, ⟨0, 256, fun i => 10 + i % 256, 0⟩⟩ : Sched).p.runqtail ∧
      st'.p.runq =
        (⟨0, 0, 0, fun _ => 0, ⟨0, 256, fun i => 10 + i % 256, 0⟩⟩ : Sched).p.runq :=
  runqput_full_batch ⟨0, 0, 0, fun _ => 0, ⟨0, 256, fun i => 10 + i % 256, 0⟩⟩ [] 5000
    (by decide) (by decide) (by decide) (by decide)

/-! `globrunqget`: the batch transfer from the global queue into a P. -/

lemma runqput_fast (st : Sched) (gp : Nat)
    (hroom : sub32 st.p.runqtail st.p.runqhead < runqLen) :
    runqput st gp false = .ok { st with p := { st.p with
      runq := Function.update st.p.runq (st.p.runqtail % runqLen) gp,
      runqtail := add32 st.p.runqtail 1 } } := by
  simp [runqput, runqputTail, hroom]

lemma sub32_add32_one (t h : Nat) (hlt : sub32 t h + 1 < uint32Mod) :
    sub32 (add32 t 1) h = sub32 t h + 1 := by
  simp only [sub32, add32, uint32Mod] at *
  omega

lemma add32_add32 (t a b : Nat) : add32 (add32 t a) b = add32 t (a + b) := by
  simp only [add32, uint32Mod]
  omega

lemma globrunqgetN_bounds (g gs : Nat) (max : Int) (h : gs ≠ 0) :
    1 ≤ globrunqgetN g gs max ∧ globrunqgetN g gs max ≤ gs ∧
    globrunqgetN g gs max ≤ runqLen / 2 := by
  unfold globrunqgetN
  simp only [runqLen]
  generalize gs / g = q
  split_ifs <;> omega

lemma globrunqgetLoop_spec :
    ∀ (k : Nat) (st : Sched) (rest : List Nat),
      isChainB st.links st.runqhead rest = true →
      k ≤ rest.length →
      sub32 st.p.runqtail st.p.runqhead + k ≤ runqLen →
      st.p.runqtail < uint32Mod →
      ∃ st', globrunqgetLoop k st = .ok st' ∧
        st'.links = st.links ∧ st'.runqsize = st.runqsize ∧ st'.runqtail = st.runqtail ∧
        isChainB st'.links st'.runqhead (rest.drop k) = true ∧
        st'.p.runqhead = st.p.runqhead ∧ st'.p.runnext = st.p.runnext ∧
        st'.p.runqtail = add32 st.p.runqtail k ∧
        (∀ i, i < k → st'.p.runq ((st.p.runqtail + i) % runqLen) = rest.getD i 0) ∧
        (∀ j, (∀ i, i < k → j ≠ (st.p.runqtail + i) % runqLen) →
          st'.p.runq j = st.p.runq j) := by
  intro k
  induction k with
  | zero =>
    intro st rest hc _ _ ht
    refine ⟨st, rfl, rfl, rfl, rfl, by simpa using hc, rfl, rfl, ?_, ?_, ?_⟩
    · show st.p.runqtail = add32 st.p.runqtail 0
      simp only [add32, uint32Mod] at *
      omega
    · intro i hi
      omega
    · intro j _
      rfl
  | succ k ih =>
    intro st rest hc hk hroom ht
    cases rest with
    | nil => simp at hk
    | cons x r =>
      simp only [isChainB, Bool.and_eq_true, beq_iff_eq, bne_iff_ne, ne_eq] at hc
      obtain ⟨⟨hhead, -⟩, hcrest⟩ := hc
      have hsub : sub32 st.p.runqtail st.p.runqhead < runqLen := by omega
      have hkmax : k + 1 ≤ runqLen := by omega
      have hput := runqput_fast { st with runqhead := st.links x } x hsub
      have hstep : globrunqgetLoop (k + 1) st =
          globrunqgetLoop k
            { st with
              runqhead := st.links x,
              p := { st.p with
                     runq := Function.update st.p.runq (st.p.runqtail % runqLen) x,
                     runqtail := add32 st.p.runqtail 1 } } := by
        simp only [globrunqgetLoop]
        rw [hhead, hput]
      have hchain2 : isChainB st.links (st.links x) r = true := hcrest
      have hsub2 : sub32 (add32 st.p.runqtail 1) st.p.runqhead + k ≤ runqLen := by
        rw [sub32_add32_one st.p.runqtail st.p.runqhead (by
          simp only [uint32Mod, runqLen] at *
          omega)]
        omega
      obtain ⟨st', hok, hlinks, hsize, htail, hchain', hph, hprn, hpt, hslots, huntouched⟩ :=
        ih { st with
             runqhead := st.links x,
             p := { st.p with
                    runq := Function.update st.p.runq (st.p.runqtail % runqLen) x,
                    runqtail := add32 st.p.runqtail 1 } } r hchain2 (by simpa using hk) hsub2
          (Nat.mod_lt _ (by norm_num [uint32Mod]))
      refine ⟨st', by rw [hstep]; exact hok, hlinks, hsize, htail, ?_, hph, hprn, ?_, ?_, ?_⟩
      · rw [List.drop_succ_cons]
        exact hchain'
      · rw [hpt]
        show add32 (add32 st.p.runqtail 1) k = add32 st.p.runqtail (k + 1)
        rw [add32_add32, Nat.add_comm 1 k]
      · intro i hi
        rcases Nat.eq_zero_or_pos i with rfl | hipos
        · have hj : ∀ i', i' < k →
              (st.p.runqtail + 0) % runqLen ≠ (add32 st.p.runqtail 1 + i') % runqLen := by
            intro i' hi'
            simp only [add32, uint32Mod, runqLen] at *
            omega
          have := huntouched ((st.p.runqtail + 0) % runqLen) hj
          rw [this]
          show Function.update st.p.runq (st.p.runqtail % runqLen) x
            ((st.p.runqtail + 0) % runqLen) = (x :: r).getD 0 0
          rw [Nat.add_zero, Function.update_same]
          rfl
        · obtain ⟨i', rfl⟩ : ∃ i', i = i' + 1 := ⟨i - 1, by omega⟩
          have hidx : (add32 st.p.runqtail 1 + i') % runqLen =
              (st.p.runqtail + (i' + 1)) % runqLen := by
            simp only [add32, uint32Mod, runqLen]
            omega
          have := hslots i' (by omega)
          rw [hidx] at this
          rw [this]
          rfl
      · intro j hj
        have hj' : ∀ i', i' < k → j ≠ (add32 st.p.runqtail 1 + i') % runqLen := by
          intro i' hi'
          have hidx : (add32 st.p.runqtail 1 + i') % runqLen =
              (st.p.runqtail + (i' + 1)) % runqLen := by
            simp only [add32, uint32Mod, runqLen]
            omega
          rw [hidx]
          exact hj (i' + 1) (by omega)
        rw [huntouched j hj']
        show Function.update st.p.runq (st.p.runqtail % runqLen) x j = st.p.runq j
        have hj0 : j ≠ st.p.runqtail % runqLen := by
          have := hj 0 (by omega)
          rwa [Nat.add_zero] at this
        exact Function.update_noteq hj0 x st.p.runq

lemma globrunqget_eq (gomaxprocs : Nat) (st : Sched) (max : Int)
    (hne : st.runqsize ≠ 0) :
    globrunqget gomaxprocs st max =
      (match globrunqgetLoop (globrunqgetN gomaxprocs st.runqsize max - 1)
          { st with
            runqhead := st.links st.runqhead,
            runqtail := if st.runqsize - globrunqgetN gomaxprocs st.runqsize max = 0
                        then 0 else st.runqtail,
            runqsize := st.runqsize - globrunqgetN gomaxprocs st.runqsize max } with
        | .error e => .error e
        | .ok st3 => .ok (some st.runqhead, st3)) := by
  simp only [globrunqget]
  rw [if_neg hne]

lemma globrunqget_spec (gomaxprocs : Nat) (st : Sched) (max : Int) (l : List Nat)
    (hinv : schedQueueInv st l) (hne : st.runqsize ≠ 0)
    (ht : st.p.runqtail < uint32Mod)
    (hroom : sub32 st.p.runqtail st.p.runqhead + runqLen / 2 ≤ runqLen) :
    ∃ st', globrunqget gomaxprocs st max = .ok (some (l.headD 0), st') ∧
      schedQueueInv st' (l.drop (globrunqgetN gomaxprocs st.runqsize max)) ∧
      st'.runqsize = st.runqsize - globrunqgetN gomaxprocs st.runqsize max ∧
      st'.links = st.links ∧
      st'.p.runqhead = st.p.runqhead ∧ st'.p.runnext = st.p.runnext ∧
      st'.p.runqtail = add32 st.p.runqtail (globrunqgetN gomaxprocs st.runqsize max - 1) ∧
      (∀ i, i < globrunqgetN gomaxprocs st.runqsize max - 1 →
        st'.p.runq ((st.p.runqtail + i) % runqLen) = l.getD (i + 1) 0) := by
  obtain ⟨hn1, hnle, hn128⟩ := globrunqgetN_bounds gomaxprocs st.runqsize max hne
  obtain ⟨hc, hndl, hsz, htl⟩ := hinv
  cases l with
  | nil =>
    rw [hsz] at hne
    simp at hne
  | cons x r =>
    simp only [isChainB, Bool.and_eq_true, beq_iff_eq, bne_iff_ne, ne_eq] at hc
    obtain ⟨⟨hhead, hx0⟩, hcrest⟩ := hc
    have hloop := globrunqgetLoop_spec (globrunqgetN gomaxprocs st.runqsize max - 1)
      { st with
        runqhead := st.links x,
        runqtail := if st.runqsize - globrunqgetN gomaxprocs st.runqsize max = 0
                    then 0 else st.runqtail,
        runqsize := st.runqsize - globrunqgetN gomaxprocs st.runqsize max }
      r hcrest ?hlen ?hroom2 ht
    case hlen =>
      have : st.runqsize = r.length + 1 := by
        rw [hsz]
        rfl
      omega
    case hroom2 =>
      show sub32 st.p.runqtail st.p.runqhead +
        (globrunqgetN gomaxprocs st.runqsize max - 1) ≤ runqLen
      simp only [runqLen] at *
      omega
    obtain ⟨st', hok, hlinks, hsize, htail, hchain', hph, hprn, hpt, hslots, -⟩ := hloop
    have hmain : globrunqget gomaxprocs st max = .ok (some x, st') := by
      rw [globrunqget_eq gomaxprocs st max hne, hhead, hok]
    refine ⟨st', hmain, ?_, ?_, hlinks, hph, hprn, hpt, ?_⟩
    · have hdrop : (x :: r).drop (globrunqgetN gomaxprocs st.runqsize max) =
          r.drop (globrunqgetN gomaxprocs st.runqsize max - 1) := by
        obtain ⟨m, hm⟩ : ∃ m, globrunqgetN gomaxprocs st.runqsize max = m + 1 :=
          ⟨globrunqgetN gomaxprocs st.runqsize max - 1, by omega⟩
        rw [hm]
        simp
      rw [hdrop]
      refine ⟨hchain', ?_, ?_, ?_⟩
      · exact List.Nodup.sublist
          ((List.drop_sublist _ r).trans (List.sublist_cons_self x r)) hndl
      · rw [hsize]
        show st.runqsize - globrunqgetN gomaxprocs st.runqsize max =
          (r.drop (globrunqgetN gomaxprocs st.runqsize max - 1)).length
        rw [List.length_drop]
        have hlen' : st.runqsize = r.length + 1 := by
          rw [hsz]
          rfl
        omega
      · rw [htail]
        show (if st.runqsize - globrunqgetN gomaxprocs st.runqsize max = 0
              then 0 else st.runqtail) =
          lastG (r.drop (globrunqgetN gomaxprocs st.runqsize max - 1))
        have hlen' : st.runqsize = r.length + 1 := by
          rw [hsz]
          rfl
        by_cases hz : st.runqsize - globrunqgetN gomaxprocs st.runqsize max = 0
        · rw [if_pos hz]
          have : r.drop (globrunqgetN gomaxprocs st.runqsize max - 1) = [] := by
            apply List.eq_nil_of_length_eq_zero
            rw [List.length_drop]
            omega
          rw [this]
          rfl
        · rw [if_neg hz]
          have hne' : r.drop (globrunqgetN gomaxprocs st.runqsize max - 1) ≠ [] := by
            have hlength : (r.drop (globrunqgetN gomaxprocs st.runqsize max - 1)).length =
                r.length - (globrunqgetN gomaxprocs st.runqsize max - 1) :=
              List.length_drop _ _
            intro hcon
            rw [hcon] at hlength
            simp only [List.length_nil] at hlength
            omega
          have hrne : r ≠ [] := by
            intro hcon
            rw [hcon] at hne'
            simp at hne'
          rw [lastG_drop _ _ hne', htl, lastG_cons x r hrne]
    · rw [hsize]
    · intro i hi
      have := hslots i hi
      rw [this]
      rfl

set_option maxRecDepth 40000 in
/-- C3 counterexample: with `gomaxprocs = 1`, a global queue `[1, 2]`
(`n` computes to 2) and a FULL local queue on p, `globrunqget(p, 0)` does
not leave the global queue with `runqsize - n = 0` elements: the
`runqput` of the second goroutine overflows half the local ring plus that
goroutine back onto the global queue, leaving 129 there.  The claim's
"inserts the remaining n-1 into p's local queue" is false in this
state. -/
theorem globrunqget_full_local_cex :
    globrunqgetSizeAfter (globrunqget 1
      ⟨1, 2, 2, fun x => if x = 1 then 2 else 0,
        ⟨0, 256, fun i => 100 + i % 256, 0⟩⟩ 0) = 129 ∧
    globrunqgetN 1 2 0 = 2 ∧ (129 : Nat) ≠ 2 - 2 := by
  refine ⟨by decide, by decide, by decide⟩

/-- C3 (amended): when the global queue is non-empty, and p's local
queue has room for the transferred batch (it does whenever it is at most
half full), `globrunqget(p, max)` removes exactly `n` goroutines where
`n = runqsize/gomaxprocs + 1` capped (in this order) at `runqsize`, at
`max` when `max > 0`, and at half of p's local queue capacity; it
returns the first removed goroutine and inserts the remaining `n-1` into
p's local queue.  (Without room, `runqput` falls back to `runqputslow`
and moves goroutines back to the global queue.)  When the global queue
is empty it returns nil and changes nothing. -/
theorem globrunqget_fair_share (gomaxprocs : Nat) (st : Sched) (max : Int) (l : List Nat)
    (hinv : schedQueueInv st l)
    (ht : st.p.runqtail < uint32Mod)
    (hroom : sub32 st.p.runqtail st.p.runqhead + runqLen / 2 ≤ runqLen) :
    (st.runqsize = 0 → globrunqget gomaxprocs st max = .ok (none, st)) ∧
    (st.runqsize ≠ 0 →
      ∃ st', globrunqget gomaxprocs st max = .ok (some (l.headD 0), st') ∧
        globrunqgetN gomaxprocs st.runqsize max =
          (let n1 := st.runqsize / gomaxprocs + 1
           let n2 := if st.runqsize < n1 then st.runqsize else n1
           let n3 := if 0 < max ∧ max < (n2 : Int) then max.toNat else n2
           if runqLen / 2 < n3 then runqLen / 2 else n3) ∧
        st'.runqsize = st.runqsize - globrunqgetN gomaxprocs st.runqsize max ∧
        1 ≤ globrunqgetN gomaxprocs st.runqsize max ∧
        schedQueueInv st' (l.drop (globrunqgetN gomaxprocs st.runqsize max)) ∧
        st'.p.runqtail = add32 st.p.runqtail (globrunqgetN gomaxprocs st.runqsize max - 1) ∧
        (∀ i, i < globrunqgetN gomaxprocs st.runqsize max - 1 →
          st'.p.runq ((st.p.runqtail + i) % runqLen) = l.getD (i + 1) 0)) := by
  constructor
  · intro h0
    simp [globrunqget, h0]
  · intro hne
    obtain ⟨st', hmain, hinv', hsize, -, -, -, hpt, hslots⟩ :=
      globrunqget_spec gomaxprocs st max l hinv hne ht hroom
    exact ⟨st', hmain, rfl, hsize,
      (globrunqgetN_bounds gomaxprocs st.runqsize max hne).1, hinv', hpt, hslots⟩

/-- C3 witness: `gomaxprocs = 1`, global queue `[1, 2]`, an empty local
queue; the call returns g `1`, inserts g `2` locally and empties the
global queue. -/
theorem globrunqget_fair_share_w :
    ((⟨1, 2, 2, fun x => if x = 1 then 2 else 0,
        ⟨0, 0, fun _ => 0, 0⟩⟩ : Sched).runqsize = 0 →
      globrunqget 1 ⟨1, 2, 2, fun x => if x = 1 then 2 else 0,
        ⟨0, 0, fun _ => 0, 0⟩⟩ 0 =
        .ok (none, ⟨1, 2, 2, fun x => if x = 1 then 2 else 0,
          ⟨0, 0, fun _ => 0, 0⟩⟩)) ∧
    ((⟨1, 2, 2, fun x => if x = 1 then 2 else 0,
        ⟨0, 0, fun _ => 0, 0⟩⟩ : Sched).runqsize ≠ 0 →
      ∃ st', globrunqget 1 ⟨1, 2, 2, fun x => if x = 1 then 2 else 0,
          ⟨0, 0, fun _ => 0, 0⟩⟩ 0 = .ok (some ([1, 2].headD 0), st') ∧
        globrunqgetN 1 (⟨1, 2, 2, fun x => if x = 1 then 2 else 0,
          ⟨0, 0, fun _ => 0, 0⟩⟩ : Sched).runqsize 0 =
          (let n1 := (⟨1, 2, 2, fun x => if x = 1 then 2 else 0,
            ⟨0, 0, fun _ => 0, 0⟩⟩ : Sched).runqsize / 1 + 1
           let n2 := if (⟨1, 2, 2, fun x => if x = 1 then 2 else 0,
            ⟨0, 0, fun _ => 0, 0⟩⟩ : Sched).runqsize < n1
            then (⟨1, 2, 2, fun x => if x = 1 then 2 else 0,
              ⟨0, 0, fun _ => 0, 0⟩⟩ : Sched).runqsize else n1
           let n3 := if 0 < (0 : Int) ∧ (0 : Int) < (n2 : Int) then (0 : Int).toNat else n2
           if runqLen / 2 < n3 then runqLen / 2 else n3) ∧
        st'.runqsize = (⟨1, 2, 2, fun x => if x = 1 then 2 else 0,
          ⟨0, 0, fun _ => 0, 0⟩⟩ : Sched).runqsize -
            globrunqgetN 1 (⟨1, 2, 2, fun x => if x = 1 then 2 else 0,
              ⟨0, 0, fun _ => 0, 0⟩⟩ : Sched).runqsize 0 ∧
        1 ≤ globrunqgetN 1 (⟨1, 2, 2, fun x => if x = 1 then 2 else 0,
          ⟨0, 0, fun _ => 0, 0⟩⟩ : Sched).runqsize 0 ∧
        schedQueueInv st' ([1, 2].drop (globrunqgetN 1
          (⟨1, 2, 2, fun x => if x = 1 then 2 else 0,
            ⟨0, 0, fun _ => 0, 0⟩⟩ : Sched).runqsize 0)) ∧
        st'.p.runqtail = add32 (⟨1, 2, 2, fun x => if x = 1 then 2 else 0,
          ⟨0, 0, fun _ => 0, 0⟩⟩ : Sched).p.runqtail
            (globrunqgetN 1 (⟨1, 2, 2, fun x => if x = 1 then 2 else 0,
              ⟨0, 0, fun _ => 0, 0⟩⟩ : Sched).runqsize 0 - 1) ∧
        (∀ i, i < globrunqgetN 1 (⟨1, 2, 2, fun x => if x = 1 then 2 else 0,
            ⟨0, 0, fun _ => 0, 0⟩⟩ : Sched).runqsize 0 - 1 →
          st'.p.runq (((⟨1, 2, 2, fun x => if x = 1 then 2 else 0,
            ⟨0, 0, fun _ => 0, 0⟩⟩ : Sched).p.runqtail + i) % runqLen) =
            [1, 2].getD (i + 1) 0)) :=
  globrunqget_fair_share 1
    ⟨1, 2, 2, fun x => if x = 1 then 2 else 0, ⟨0, 0, fun _ => 0, 0⟩⟩ 0 [1, 2]
    (by decide) (by decide) (by decide)

set_option maxRecDepth 40000 in
/-- C10 counterexample: on a state satisfying the representation
invariant (global chain `[3, 4]`, `runqsize = 2`) but whose P has a full
local ring, `globrunqget(p, 0)` with `gomaxprocs = 1` removes `n = 2`
goroutines yet leaves `runqsize = 129`, not `2 - 2 = 0`: the nested
`runqput` of the second goroutine overflows half the local ring plus
that goroutine back onto the global queue, so `globrunqget` does not
change `runqsize` by exactly the number of goroutines removed. -/
theorem globrunq_invariant_get_cex :
    schedQueueInv ⟨3, 4, 2, fun x => if x = 3 then 4 else 0,
      ⟨0, 256, fun i => 500 + i % 256, 0⟩⟩ [3, 4] ∧
    globrunqgetN 1 2 0 = 2 ∧
    globrunqgetSizeAfter (globrunqget 1
      ⟨3, 4, 2, fun x => if x = 3 then 4 else 0,
        ⟨0, 256, fun i => 500 + i % 256, 0⟩⟩ 0) = 129 ∧
    (129 : Nat) ≠ 2 - 2 := by
  refine ⟨by decide, by decide, by decide, by decide⟩

/-- C10 (amended): the global run-queue representation invariant —
`runqsize` is the length of the schedlink chain from `runqhead` to
`runqtail`, `runqtail` is its last element (zero exactly when the queue
is empty) — is preserved by `globrunqput`, `globrunqputhead` and
`globrunqputbatch`, each increasing `runqsize` by exactly the number of
goroutines added, and by `globrunqget`, which decreases `runqsize` by
exactly the number of goroutines removed provided the caller's local
queue has room for the `n-1` inserted goroutines (as when it is at most
half full); with a full local queue the nested `runqput` overflows half
the local ring plus one goroutine back onto the global queue. -/
theorem globrunq_invariant :
    (∀ (st : Sched) (l : List Nat), schedQueueInv st l → (st.runqtail = 0 ↔ l = [])) ∧
    (∀ (st : Sched) (l : List Nat) (gp : Nat), schedQueueInv st l → gp ≠ 0 → gp ∉ l →
      schedQueueInv (globrunqput st gp) (l ++ [gp]) ∧
      (globrunqput st gp).runqsize = st.runqsize + 1) ∧
    (∀ (st : Sched) (l : List Nat) (gp : Nat), schedQueueInv st l → gp ≠ 0 → gp ∉ l →
      schedQueueInv (globrunqputhead st gp) (gp :: l) ∧
      (globrunqputhead st gp).runqsize = st.runqsize + 1) ∧
    (∀ (st : Sched) (l lb : List Nat), schedQueueInv st l → lb ≠ [] → (l ++ lb).Nodup →
      isChainB (Function.update st.links (lastG lb) 0) (lb.headD 0) lb = true →
      schedQueueInv (globrunqputbatch st (lb.headD 0) (lastG lb) lb.length) (l ++ lb) ∧
      (globrunqputbatch st (lb.headD 0) (lastG lb) lb.length).runqsize =
        st.runqsize + lb.length) ∧
    (∀ (gomaxprocs : Nat) (st : Sched) (max : Int) (l : List Nat),
      schedQueueInv st l → st.runqsize ≠ 0 → st.p.runqtail < uint32Mod →
      sub32 st.p.runqtail st.p.runqhead + runqLen / 2 ≤ runqLen →
      ∃ st', globrunqget gomaxprocs st max = .ok (some (l.headD 0), st') ∧
        schedQueueInv st' (l.drop (globrunqgetN gomaxprocs st.runqsize max)) ∧
        st'.runqsize = st.runqsize - globrunqgetN gomaxprocs st.runqsize max ∧
        1 ≤ globrunqgetN gomaxprocs st.runqsize max ∧
        globrunqgetN gomaxprocs st.runqsize max ≤ st.runqsize) ∧
    (∀ (gomaxprocs : Nat) (st : Sched) (max : Int), st.runqsize = 0 →
      globrunqget gomaxprocs st max = .ok (none, st)) := by
  refine ⟨?_, ?_, ?_, ?_, ?_, ?_⟩
  · intro st l hinv
    exact schedQueueInv_tail_zero hinv
  · intro st l gp hinv h0 hmem
    exact globrunqput_inv st l gp hinv h0 hmem
  · intro st l gp hinv h0 hmem
    exact globrunqputhead_inv st l gp hinv h0 hmem
  · intro st l lb hinv hlb hnd hchain
    obtain ⟨h1, h2, -⟩ := globrunqputbatch_inv st l lb hinv hlb hnd hchain
    exact ⟨h1, h2⟩
  · intro gomaxprocs st max l hinv hne ht hroom
    obtain ⟨st', hmain, hinv', hsize, -, -, -, -, -⟩ :=
      globrunqget_spec gomaxprocs st max l hinv hne ht hroom
    obtain ⟨hb1, hb2, -⟩ := globrunqgetN_bounds gomaxprocs st.runqsize max hne
    exact ⟨st', hmain, hinv', hsize, hb1, hb2⟩
  · intro gomaxprocs st max h0
    simp [globrunqget, h0]

/-- C10 witness: each operation exercised once on concrete states — the
tail-zero characterization on the empty queue, an append of g `5`, a
head-push of g `7`, a two-element batch `[7, 8]`, a `globrunqget` on the
chain `[1, 2]`, and the empty-queue `globrunqget`. -/
theorem globrunq_invariant_w :
    ((⟨0, 0, 0, fun _ => 0, ⟨0, 0, fun _ => 0, 0⟩⟩ : Sched).runqtail = 0 ↔
      ([] : List Nat) = []) ∧
    (schedQueueInv (globrunqput ⟨0, 0, 0, fun _ => 0, ⟨0, 0, fun _ => 0, 0⟩⟩ 5)
        ([] ++ [5]) ∧
      (globrunqput ⟨0, 0, 0, fun _ => 0, ⟨0, 0, fun _ => 0, 0⟩⟩ 5).runqsize =
        (⟨0, 0, 0, fun _ => 0, ⟨0, 0, fun _ => 0, 0⟩⟩ : Sched).runqsize + 1) ∧
    (schedQueueInv (globrunqputhead ⟨0, 0, 0, fun _ => 0, ⟨0, 0, fun _ => 0, 0⟩⟩ 7)
        ([7] : List Nat) ∧
      (globrunqputhead ⟨0, 0, 0, fun _ => 0, ⟨0, 0, fun _ => 0, 0⟩⟩ 7).runqsize =
        (⟨0, 0, 0, fun _ => 0, ⟨0, 0, fun _ => 0, 0⟩⟩ : Sched).runqsize + 1) ∧
    (schedQueueInv (globrunqputbatch
        ⟨0, 0, 0, fun x => if x = 7 then 8 else 0, ⟨0, 0, fun _ => 0, 0⟩⟩
        ([7, 8].headD 0) (lastG [7, 8]) ([7, 8] : List Nat).length) ([] ++ [7, 8]) ∧
      (globrunqputbatch
        ⟨0, 0, 0, fun x => if x = 7 then 8 else 0, ⟨0, 0, fun _ => 0, 0⟩⟩
        ([7, 8].headD 0) (lastG [7, 8]) ([7, 8] : List Nat).length).runqsize =
        (⟨0, 0, 0, fun x => if x = 7 then 8 else 0,
          ⟨0, 0, fun _ => 0, 0⟩⟩ : Sched).runqsize + ([7, 8] : List Nat).length) ∧
    (∃ st', globrunqget 1 ⟨1, 2, 2, fun x => if x = 1 then 2 else 0,
        ⟨0, 0, fun _ => 0, 0⟩⟩ 0 = .ok (some ([1, 2].headD 0), st') ∧
      schedQueueInv st' ([1, 2].drop (globrunqgetN 1
        (⟨1, 2, 2, fun x => if x = 1 then 2 else 0,
          ⟨0, 0, fun _ => 0, 0⟩⟩ : Sched).runqsize 0)) ∧
      st'.runqsize = (⟨1, 2, 2, fun x => if x = 1 then 2 else 0,
        ⟨0, 0, fun _ => 0, 0⟩⟩ : Sched).runqsize -
          globrunqgetN 1 (⟨1, 2, 2, fun x => if x = 1 then 2 else 0,
            ⟨0, 0, fun _ => 0, 0⟩⟩ : Sched).runqsize 0 ∧
      1 ≤ globrunqgetN 1 (⟨1, 2, 2, fun x => if x = 1 then 2 else 0,
        ⟨0, 0, fun _ => 0, 0⟩⟩ : Sched).runqsize 0 ∧
      globrunqgetN 1 (⟨1, 2, 2, fun x => if x = 1 then 2 else 0,
        ⟨0, 0, fun _ => 0, 0⟩⟩ : Sched).runqsize 0 ≤
        (⟨1, 2, 2, fun x => if x = 1 then 2 else 0,
          ⟨0, 0, fun _ => 0, 0⟩⟩ : Sched).runqsize) ∧
    globrunqget 3 ⟨0, 0, 0, fun _ => 0, ⟨0, 0, fun _ => 0, 0⟩⟩ 0 =
      .ok (none, ⟨0, 0, 0, fun _ => 0, ⟨0, 0, fun _ => 0, 0⟩⟩) := by
  refine ⟨?_, ?_, ?_, ?_, ?_, ?_⟩
  · exact globrunq_invariant.1 ⟨0, 0, 0, fun _ => 0, ⟨0, 0, fun _ => 0, 0⟩⟩ [] (by decide)
  · exact globrunq_invariant.2.1 ⟨0, 0, 0, fun _ => 0, ⟨0, 0, fun _ => 0, 0⟩⟩ [] 5
      (by decide) (by decide) (by decide)
  · exact globrunq_invariant.2.2.1 ⟨0, 0, 0, fun _ => 0, ⟨0, 0, fun _ => 0, 0⟩⟩ [] 7
      (by decide) (by decide) (by decide)
  · exact globrunq_invariant.2.2.2.1
      ⟨0, 0, 0, fun x => if x = 7 then 8 else 0, ⟨0, 0, fun _ => 0, 0⟩⟩ [] [7, 8]
      (by decide) (by decide) (by decide) (by decide)
  · exact globrunq_invariant.2.2.2.2.1 1
      ⟨1, 2, 2, fun x => if x = 1 then 2 else 0, ⟨0, 0, fun _ => 0, 0⟩⟩ 0 [1, 2]
      (by decide) (by decide) (by decide) (by decide)
  · exact globrunq_invariant.2.2.2.2.2 3
      ⟨0, 0, 0, fun _ => 0, ⟨0, 0, fun _ => 0, 0⟩⟩ 0 (by decide)

/-! C1: the `runqgrab` batch computation inside `runqsteal`. -/

lemma copyBatch_spec (srcq : Nat → Nat) (h bh : Nat) (batch : Nat → Nat) :
    ∀ n, n ≤ runqLen → ∀ i, i < n →
      copyBatch srcq h bh batch n ((bh + i) % runqLen) = srcq ((h + i) % runqLen) := by
  intro n
  induction n with
  | zero => omega
  | succ n ih =>
    intro hn i hi
    by_cases hin : i = n
    · subst hin
      simp [copyBatch, Function.update_same]
    · have hne : (bh + i) % runqLen ≠ (bh + n) % runqLen := by
        simp only [runqLen] at *
        omega
      simp only [copyBatch, Function.update_noteq hne]
      exact ih (by omega) i (by omega)

/-- C1 counterexample: stealing from a consistent queue holding three
goroutines grabs two of them — the source's `n = n - n/2` (the ceiling of
half) — and commits the CAS advancing the head from 0 to 2, not to
`0 + (t-h)/2 = 1` as the claim's floor formula would have it. -/
theorem runqsteal_floor_half_cex :
    stolenSrcHead (runqsteal ⟨0, 0, fun _ => 0, 0⟩ ⟨0, 3, fun i => 11 + i % 256, 0⟩ false) = 2 ∧
    sub32 3 0 / 2 = 1 ∧ (2 : Nat) ≠ 0 + sub32 3 0 / 2 := by
  refine ⟨by decide, by decide, by decide⟩

/-- C1 (amended): in a `runqsteal(dst, src, stealRunnext)` call that takes
goroutines from src's ring buffer, the grab loop of `runqgrab` computes,
from an acquire-load snapshot of src's head `h` and tail `t`,
`n = (t-h) - (t-h)/2` (the ceiling of half); a snapshot with `n`
exceeding half the queue capacity is treated as inconsistent and retried
(`continue`); otherwise the `n` entries starting at `h` are copied into
dst's ring at dst's tail and committed by a CAS advancing src's head from
`h` to `h+n`. -/
theorem runqgrab_batch_spec :
    (∀ (pp p2 : PState) (srn : Bool),
      1 ≤ sub32 p2.runqtail p2.runqhead → sub32 p2.runqtail p2.runqhead ≤ runqLen →
      ∃ batch p2',
        runqgrabStep p2 pp.runq pp.runqtail srn =
          some (sub32 p2.runqtail p2.runqhead - sub32 p2.runqtail p2.runqhead / 2,
                batch, p2') ∧
        sub32 p2.runqtail p2.runqhead - sub32 p2.runqtail p2.runqhead / 2 ≤ runqLen / 2 ∧
        p2'.runqhead = add32 p2.runqhead
          (sub32 p2.runqtail p2.runqhead - sub32 p2.runqtail p2.runqhead / 2) ∧
        p2'.runqtail = p2.runqtail ∧ p2'.runnext = p2.runnext ∧
        (∀ i, i < sub32 p2.runqtail p2.runqhead - sub32 p2.runqtail p2.runqhead / 2 →
          batch ((pp.runqtail + i) % runqLen) = p2.runq ((p2.runqhead + i) % runqLen))) ∧
    (∀ (p2 : PState) (batch : Nat → Nat) (bh : Nat) (srn : Bool),
      runqLen / 2 < sub32 p2.runqtail p2.runqhead - sub32 p2.runqtail p2.runqhead / 2 →
      runqgrabStep p2 batch bh srn = none) := by
  constructor
  · intro pp p2 srn h1 h2
    set d := sub32 p2.runqtail p2.runqhead with hd
    have hn0 : d - d / 2 ≠ 0 := by omega
    have hnle : ¬ runqLen / 2 < d - d / 2 := by
      simp only [runqLen] at *
      omega
    refine ⟨copyBatch p2.runq p2.runqhead pp.runqtail pp.runq (d - d / 2),
            { p2 with runqhead := add32 p2.runqhead (d - d / 2) }, ?_, ?_, rfl, rfl, rfl, ?_⟩
    · simp only [runqgrabStep, ← hd, hn0, if_false, hnle, if_true]
    · omega
    · intro i hi
      exact copyBatch_spec p2.runq p2.runqhead pp.runqtail pp.runq (d - d / 2)
        (by omega) i hi
  · intro p2 batch bh srn hbig
    have hn0 : sub32 p2.runqtail p2.runqhead - sub32 p2.runqtail p2.runqhead / 2 ≠ 0 := by
      omega
    simp only [runqgrabStep, hn0, if_false, hbig, if_true]

/-- C1 witness: a consistent three-element queue is grabbed whole minus
its floor-half (two entries), and a corrupt snapshot (`t - h = 300`)
is retried. -/
theorem runqgrab_batch_spec_w :
    (∃ batch p2',
      runqgrabStep ⟨0, 3, fun _ => 9, 0⟩
          (⟨0, 0, fun _ => 0, 0⟩ : PState).runq
          (⟨0, 0, fun _ => 0, 0⟩ : PState).runqtail false =
        some (sub32 3 0 - sub32 3 0 / 2, batch, p2') ∧
      sub32 3 0 - sub32 3 0 / 2 ≤ runqLen / 2 ∧
      p2'.runqhead = add32 0 (sub32 3 0 - sub32 3 0 / 2) ∧
      p2'.runqtail = 3 ∧ p2'.runnext = 0 ∧
      (∀ i, i < sub32 3 0 - sub32 3 0 / 2 →
        batch ((0 + i) % runqLen) = 9)) ∧
    runqgrabStep ⟨0, 300, fun _ => 0, 0⟩ (fun _ => 0) 0 true = none := by
  constructor
  · exact (runqgrab_batch_spec.1 ⟨0, 0, fun _ => 0, 0⟩ ⟨0, 3, fun _ => 9, 0⟩
      false (by decide) (by decide))
  · exact runqgrab_batch_spec.2 ⟨0, 300, fun _ => 0, 0⟩ (fun _ => 0) 0 true (by decide)

/-! C5: the randomized stealing order visits every P exactly once per
pass, and only the last of the four passes steals `runnext`. -/

lemma coprimes_ne_nil (count : Nat) (hc : 0 < count) :
    (randomOrder.reset count).coprimes ≠ [] := by
  have h1 : 1 ∈ (randomOrder.reset count).coprimes := by
    simp only [randomOrder.reset, List.mem_filter, List.mem_map, List.mem_range]
    exact ⟨⟨0, hc, rfl⟩, by simp [Nat.gcd_one_left]⟩
  exact List.ne_nil_of_mem h1

lemma mem_coprimes_gcd {count x : Nat}
    (hx : x ∈ (randomOrder.reset count).coprimes) : Nat.gcd x count = 1 := by
  simp only [randomOrder.reset, List.mem_filter, beq_iff_eq] at hx
  exact hx.2

lemma start_inc_mem (count i : Nat) (hc : 0 < count) :
    ((randomOrder.reset count).start i).inc ∈ (randomOrder.reset count).coprimes := by
  have hlen : 0 < (randomOrder.reset count).coprimes.length :=
    List.length_pos.2 (coprimes_ne_nil count hc)
  simp only [randomOrder.start]
  rw [List.getD_eq_getElem _ _ (Nat.mod_lt _ hlen)]
  exact List.getElem_mem _

lemma enumVisits_closed (count inc : Nat) (hc : 0 < count) :
    ∀ (k i pos : Nat), pos < count →
      enumVisits ⟨i, count, pos, inc⟩ k =
        (List.range k).map (fun j => (pos + j * inc) % count) := by
  intro k
  induction k with
  | zero => intro i pos _; rfl
  | succ k ih =>
    intro i pos hpos
    rw [List.range_succ_eq_map]
    simp only [enumVisits, randomEnum.position, randomEnum.next, List.map_cons, List.map_map]
    congr 1
    · simp [Nat.mod_eq_of_lt hpos]
    · rw [ih (i + 1) ((pos + inc) % count) (Nat.mod_lt _ hc)]
      apply List.map_congr_left
      intro j _
      show ((pos + inc) % count + j * inc) % count = (pos + (j + 1) * inc) % count
      have h1 : pos + (j + 1) * inc = pos + inc + j * inc := by ring
      rw [h1]
      exact (Nat.mod_modEq (pos + inc) count).add_right (j * inc)

lemma range_toFinset (n : Nat) : (List.range n).toFinset = Finset.range n := by
  ext x
  simp [List.mem_toFinset, List.mem_range, Finset.mem_range]

lemma stealOrderPositions_perm (count seed : Nat) (hc : 1 ≤ count) :
    (stealOrderPositions count seed).Perm (List.range count) := by
  have hc0 : 0 < count := hc
  have hg0 : Nat.gcd ((randomOrder.reset count).start seed).inc count = 1 :=
    mem_coprimes_gcd (start_inc_mem count seed hc0)
  set inc := ((randomOrder.reset count).start seed).inc with hinc
  have hg : Nat.gcd count inc = 1 := by rwa [Nat.gcd_comm]
  have hclosed : stealOrderPositions count seed =
      (List.range count).map (fun j => (seed % count + j * inc) % count) := by
    show enumVisits ((randomOrder.reset count).start seed) count = _
    have hstart : (randomOrder.reset count).start seed =
        ⟨0, count, seed % count, inc⟩ := rfl
    rw [hstart]
    exact enumVisits_closed count inc hc0 count 0 (seed % count) (Nat.mod_lt _ hc0)
  rw [hclosed]
  have hinj : ∀ j1 ∈ List.range count, ∀ j2 ∈ List.range count,
      (seed % count + j1 * inc) % count = (seed % count + j2 * inc) % count → j1 = j2 := by
    intro j1 hj1 j2 hj2 heq
    simp only [List.mem_range] at hj1 hj2
    have hmod : j1 * inc ≡ j2 * inc [MOD count] :=
      Nat.ModEq.add_left_cancel' (seed % count) heq
    have hjj : j1 ≡ j2 [MOD count] := Nat.ModEq.cancel_right_of_coprime hg hmod
    have : j1 % count = j2 % count := hjj
    rwa [Nat.mod_eq_of_lt hj1, Nat.mod_eq_of_lt hj2] at this
  have hnd : ((List.range count).map
      (fun j => (seed % count + j * inc) % count)).Nodup :=
    List.Nodup.map_on hinj (List.nodup_range count)
  have hsub : ((List.range count).map
      (fun j => (seed % count + j * inc) % count)).toFinset ⊆ Finset.range count := by
    intro x hx
    simp only [List.mem_toFinset, List.mem_map, List.mem_range] at hx
    obtain ⟨j, -, rfl⟩ := hx
    exact Finset.mem_range.2 (Nat.mod_lt _ hc0)
  have hcard : ((List.range count).map
      (fun j => (seed % count + j * inc) % count)).toFinset.card = count := by
    rw [List.toFinset_card_of_nodup hnd, List.length_map, List.length_range]
  have heq : ((List.range count).map
      (fun j => (seed % count + j * inc) % count)).toFinset = Finset.range count :=
    Finset.eq_of_subset_of_card_le hsub (by rw [hcard, Finset.card_range])
  exact List.perm_of_nodup_nodup_toFinset_eq hnd (List.nodup_range count)
    (heq.trans (range_toFinset count).symm)

/-- C5: the stealing phase of `findrunnable` makes exactly four passes
over the other P's; within each pass the enumeration started from a
random seed, stepped by an increment coprime to the P count, visits every
P index in `[0, gomaxprocs)` exactly once (for every `count >= 1` and
every seed); and `stealRunNextG` is set only on the final (fourth)
pass. -/
theorem findrunnable_steal_passes (count : Nat) (seeds : Nat → Nat) (hc : 1 ≤ count) :
    (stealLoopPasses count seeds).length = 4 ∧
    (∀ e ∈ stealLoopPasses count seeds,
      (e.2.2).Perm (List.range count) ∧ (e.2.1 = true ↔ e.1 = 3)) := by
  refine ⟨by simp [stealLoopPasses], ?_⟩
  intro e he
  simp only [stealLoopPasses, List.mem_map, List.mem_range] at he
  obtain ⟨i, hi, rfl⟩ := he
  refine ⟨stealOrderPositions_perm count (seeds i) hc, ?_⟩
  simp only [stealRunNextGAt, decide_eq_true_eq]
  omega

/-- C5 witness: four P's, a fixed seed. -/
theorem findrunnable_steal_passes_w :
    (stealLoopPasses 4 (fun _ => 7)).length = 4 ∧
    (∀ e ∈ stealLoopPasses 4 (fun _ => 7),
      (e.2.2).Perm (List.range 4) ∧ (e.2.1 = true ↔ e.1 = 3)) :=
  findrunnable_steal_passes 4 (fun _ => 7) (by decide)

/-- C6: `ready(g)` throws unless g's status with the scan bit cleared is
`_Gwaiting`; otherwise it CASes the status to `_Grunnable`, `runqput`s g
on the current M's P (into `runnext` when the `next` flag is set) and
calls `wakep` exactly when `npidle != 0 && nmspinning == 0` (loaded
after the insertion). -/
theorem ready_spec (st : Sched) (gstatus gp : Nat) (next : Bool)
    (npidle nmspinning : Nat)
    (hq : sub32 st.p.runqtail st.p.runqhead ≤ runqLen) :
    (andNotScan gstatus ≠ _Gwaiting →
      ready st gstatus gp next npidle nmspinning = .error "bad g->status in ready") ∧
    (andNotScan gstatus = _Gwaiting →
      ∃ st1 wake, runqput st gp next = .ok st1 ∧
        ready st gstatus gp next npidle nmspinning = .ok (_Grunnable, st1, wake) ∧
        (wake = true ↔ (npidle ≠ 0 ∧ nmspinning = 0)) ∧
        (next = true → st1.p.runnext = gp)) := by
  constructor
  · intro h
    simp [ready, h]
  · intro h
    obtain ⟨st1, hok, hrn⟩ := runqput_ok st gp next hq
    refine ⟨st1, npidle != 0 && nmspinning == 0, hok, ?_, ?_, hrn⟩
    · simp [ready, h, hok]
    · simp

/-- C6 witness: readying a `_Gscanwaiting` g with `next` set, one idle P
and no spinner; and a `_Grunning` g throws. -/
theorem ready_spec_w :
    (∃ st1 wake,
      runqput ⟨0, 0, 0, fun _ => 0, ⟨5, 5, fun _ => 0, 0⟩⟩ 3 true = .ok st1 ∧
      ready ⟨0, 0, 0, fun _ => 0, ⟨5, 5, fun _ => 0, 0⟩⟩ (_Gwaiting + _Gscan) 3 true 1 0 =
        .ok (_Grunnable, st1, wake) ∧
      (wake = true ↔ ((1 : Nat) ≠ 0 ∧ (0 : Nat) = 0)) ∧
      (true = true → st1.p.runnext = 3)) ∧
    ready ⟨0, 0, 0, fun _ => 0, ⟨5, 5, fun _ => 0, 0⟩⟩ _Grunning 3 true 1 0 =
      .error "bad g->status in ready" := by
  constructor
  · exact (ready_spec ⟨0, 0, 0, fun _ => 0, ⟨5, 5, fun _ => 0, 0⟩⟩ (_Gwaiting + _Gscan)
      3 true 1 0 (by decide)).2 (by decide)
  · exact (ready_spec ⟨0, 0, 0, fun _ => 0, ⟨5, 5, fun _ => 0, 0⟩⟩ _Grunning
      3 true 1 0 (by decide)).1 (by decide)
